import Mathlib

/-!
Verification development for the UFC Quixadá student-assistant backend
(`backend/modules`). Python functions are shallowly embedded as Lean
definitions over `String`/`List Char` and association lists standing for
Python dicts. External libraries (`unicodedata`, `difflib`, `json`,
`redis`, BeautifulSoup) are modelled at their call boundary: either by a
faithful implementation of the subset of behaviour the code relies on, or
as explicit oracle parameters when the result is data the code merely
threads through.
-/

namespace UFCAgent

/-- Code-point predicate behind `isPySpace`. -/
def spaceNat (n : Nat) : Bool :=
  n = 32 || (9 ≤ n && n ≤ 13) || (28 ≤ n && n ≤ 31) ||
  n = 133 || n = 160 || n = 0x1680 ||
  (0x2000 ≤ n && n ≤ 0x200a) || n = 0x2028 || n = 0x2029 ||
  n = 0x202f || n = 0x205f || n = 0x3000

/-- Python `\s` for `str` patterns, restricted to the Unicode whitespace
code points (ASCII whitespace, the C1 separators, NBSP and the usual
Unicode space block) that this data set can contain. -/
def isPySpace (c : Char) : Bool :=
  spaceNat c.toNat

/-- Code-point predicate behind `isPyWord`. -/
def wordNat (n : Nat) : Bool :=
  (48 ≤ n && n ≤ 57) || (65 ≤ n && n ≤ 90) || (97 ≤ n && n ≤ 122) || n = 95 ||
  (0xC0 ≤ n && n ≤ 0xFF && !(n = 0xD7) && !(n = 0xF7))

/-- Python `\w` for `str` patterns: ASCII alphanumerics, underscore, and —
as the modelled subset of the Unicode letters — the Latin-1 letters
`À`–`ÿ` (excluding `×` and `÷`), which cover the Portuguese data. -/
def isPyWord (c : Char) : Bool :=
  wordNat c.toNat

/-- Contiguous-sublist test on character lists. -/
def infixOfL : List Char → List Char → Bool
  | needle, [] => needle.isEmpty
  | needle, c :: rest => needle.isPrefixOf (c :: rest) || infixOfL needle rest

/-- Python's substring test `needle in haystack`. -/
def pyIn (needle haystack : String) : Bool :=
  infixOfL needle.data haystack.data

/-- `unicodedata.normalize("NFD", ·)` on one character, for the Latin-1
letters occurring in the scraped pages; other characters are returned
undecomposed (they are discarded by the ASCII projection anyway). -/
def nfdChar (c : Char) : List Char :=
  if c.toNat < 0xC0 then [c] else
  match c with
  | 'À' => ['A', '̀'] | 'Á' => ['A', '́'] | 'Â' => ['A', '̂']
  | 'Ã' => ['A', '̃'] | 'Ä' => ['A', '̈'] | 'Å' => ['A', '̊']
  | 'Ç' => ['C', '̧']
  | 'È' => ['E', '̀'] | 'É' => ['E', '́'] | 'Ê' => ['E', '̂']
  | 'Ë' => ['E', '̈']
  | 'Ì' => ['I', '̀'] | 'Í' => ['I', '́'] | 'Î' => ['I', '̂']
  | 'Ï' => ['I', '̈']
  | 'Ñ' => ['N', '̃']
  | 'Ò' => ['O', '̀'] | 'Ó' => ['O', '́'] | 'Ô' => ['O', '̂']
  | 'Õ' => ['O', '̃'] | 'Ö' => ['O', '̈']
  | 'Ù' => ['U', '̀'] | 'Ú' => ['U', '́'] | 'Û' => ['U', '̂']
  | 'Ü' => ['U', '̈']
  | 'Ý' => ['Y', '́']
  | 'à' => ['a', '̀'] | 'á' => ['a', '́'] | 'â' => ['a', '̂']
  | 'ã' => ['a', '̃'] | 'ä' => ['a', '̈'] | 'å' => ['a', '̊']
  | 'ç' => ['c', '̧']
  | 'è' => ['e', '̀'] | 'é' => ['e', '́'] | 'ê' => ['e', '̂']
  | 'ë' => ['e', '̈']
  | 'ì' => ['i', '̀'] | 'í' => ['i', '́'] | 'î' => ['i', '̂']
  | 'ï' => ['i', '̈']
  | 'ñ' => ['n', '̃']
  | 'ò' => ['o', '̀'] | 'ó' => ['o', '́'] | 'ô' => ['o', '̂']
  | 'õ' => ['o', '̃'] | 'ö' => ['o', '̈']
  | 'ù' => ['u', '̀'] | 'ú' => ['u', '́'] | 'û' => ['u', '̂']
  | 'ü' => ['u', '̈']
  | 'ý' => ['y', '́'] | 'ÿ' => ['y', '̈']
  | _ => [c]

/-- `unicodedata.normalize("NFD", s).encode("ascii", "ignore")`:
decompose each character and drop everything outside ASCII
(combining marks in particular). -/
def asciiNFD : List Char → List Char
  | [] => []
  | c :: rest => (nfdChar c).filter (fun d => d.toNat < 128) ++ asciiNFD rest

/-- One character of `re.sub(r"[^\w\s]", " ", ·)`. -/
def substChar (c : Char) : Char :=
  if isPyWord c || isPySpace c then c else ' '

/-- `re.sub(r"\s+", " ", ·)`: each maximal whitespace run becomes one space. -/
def collapseWS : List Char → List Char
  | [] => []
  | [c] => if isPySpace c then [' '] else [c]
  | c1 :: c2 :: rest =>
    if isPySpace c1 && isPySpace c2 then collapseWS (c2 :: rest)
    else (if isPySpace c1 then ' ' else c1) :: collapseWS (c2 :: rest)

/-- `str.casefold()` on the ASCII-only strings it is applied to here
(after the ASCII projection), where it coincides with lowercasing. -/
def pyCasefoldAscii (c : Char) : Char :=
  if 65 ≤ c.toNat && c.toNat ≤ 90 then Char.ofNat (c.toNat + 32) else c

/-- `str.strip()` at the character-list level. -/
def pyStripList (cs : List Char) : List Char :=
  (((cs.dropWhile isPySpace).reverse).dropWhile isPySpace).reverse

/-- `str.strip()`. -/
def pyStrip (s : String) : String :=
  String.mk (pyStripList s.data)

/-- The body of `utils._normalize_token` at the character-list level. -/
def normList (cs : List Char) : List Char :=
  pyStripList (List.map pyCasefoldAscii (collapseWS (List.map substChar (asciiNFD cs))))

/-- `utils._normalize_token`: NFD-decompose, drop non-ASCII, replace
non-word/non-space characters by spaces, collapse whitespace runs,
casefold, strip. (`if not value: return ""` coincides with the pipeline
on the empty string.) -/
def _normalize_token (s : String) : String :=
  String.mk (normList s.data)


/-! Normal form of `_normalize_token` outputs. -/

/-- Characters a normalized token can contain: lowercase ASCII letter,
digit, underscore, or space. -/
def normChar (c : Char) : Bool :=
  (97 ≤ c.toNat && c.toNat ≤ 122) || (48 ≤ c.toNat && c.toNat ≤ 57) ||
  c.toNat = 95 || c.toNat = 32

/-- Adjacent characters are not both whitespace. -/
def NotBothSpace (a b : Char) : Prop :=
  ¬(isPySpace a = true ∧ isPySpace b = true)

/-- Invariant of normalized character lists: only `normChar`s, no two
adjacent whitespace characters, no whitespace at either end. -/
def NormInv (l : List Char) : Prop :=
  (∀ c ∈ l, normChar c = true) ∧ List.Chain' NotBothSpace l ∧
  (∀ c, l.head? = some c → isPySpace c = false) ∧
  (∀ c, l.getLast? = some c → isPySpace c = false)

theorem spaceNat_iff {n : Nat} : spaceNat n = true ↔
    (n = 32 ∨ (9 ≤ n ∧ n ≤ 13) ∨ (28 ≤ n ∧ n ≤ 31) ∨ n = 133 ∨ n = 160 ∨
     n = 5760 ∨ (8192 ≤ n ∧ n ≤ 8202) ∨ n = 8232 ∨ n = 8233 ∨ n = 8239 ∨
     n = 8287 ∨ n = 12288) := by
  simp only [spaceNat, Bool.or_eq_true, Bool.and_eq_true, decide_eq_true_eq]
  omega

theorem wordNat_iff {n : Nat} : wordNat n = true ↔
    ((48 ≤ n ∧ n ≤ 57) ∨ (65 ≤ n ∧ n ≤ 90) ∨ (97 ≤ n ∧ n ≤ 122) ∨ n = 95 ∨
     (192 ≤ n ∧ n ≤ 255 ∧ n ≠ 215 ∧ n ≠ 247)) := by
  simp only [wordNat, Bool.or_eq_true, Bool.and_eq_true, decide_eq_true_eq,
    Bool.not_eq_true', decide_eq_false_iff_not]
  omega

theorem normChar_iff {c : Char} : normChar c = true ↔
    ((97 ≤ c.toNat ∧ c.toNat ≤ 122) ∨ (48 ≤ c.toNat ∧ c.toNat ≤ 57) ∨
     c.toNat = 95 ∨ c.toNat = 32) := by
  simp only [normChar, Bool.or_eq_true, Bool.and_eq_true, decide_eq_true_eq]
  omega

theorem isPySpace_false_iff {c : Char} : isPySpace c = false ↔
    ¬ spaceNat c.toNat = true := by
  unfold isPySpace
  cases spaceNat c.toNat <;> simp

theorem toNat_ofNat_valid {n : Nat} (h : n < 55296) : (Char.ofNat n).toNat = n := by
  have hv : n.isValidChar := Or.inl h
  unfold Char.ofNat
  rw [dif_pos hv]
  simp [Char.ofNatAux, Char.toNat, UInt32.toNat]

theorem nfdChar_ascii {c : Char} (h : c.toNat < 128) : nfdChar c = [c] := by
  unfold nfdChar
  rw [if_pos (by omega)]

theorem asciiNFD_ascii {l : List Char} (h : ∀ c ∈ l, c.toNat < 128) :
    asciiNFD l = l := by
  induction l with
  | nil => rfl
  | cons c rest ih =>
    have hc : c.toNat < 128 := h c (List.mem_cons_self ..)
    simp [asciiNFD, nfdChar_ascii hc, hc, ih fun d hd => h d (List.mem_cons_of_mem _ hd)]

theorem mem_asciiNFD_ascii {l : List Char} {c : Char} (h : c ∈ asciiNFD l) :
    c.toNat < 128 := by
  induction l with
  | nil => simp [asciiNFD] at h
  | cons d rest ih =>
    simp only [asciiNFD, List.mem_append, List.mem_filter,
      decide_eq_true_eq] at h
    rcases h with ⟨_, h⟩ | h
    · exact h
    · exact ih h

theorem normChar_space {c : Char} (h1 : normChar c = true)
    (h2 : isPySpace c = true) : c = ' ' := by
  rw [normChar_iff] at h1
  rw [isPySpace, spaceNat_iff] at h2
  have : c.toNat = 32 := by omega
  calc c = Char.ofNat c.toNat := (Char.ofNat_toNat c).symm
    _ = ' ' := by rw [this]

theorem substChar_fixed {c : Char} (h : normChar c = true) : substChar c = c := by
  have hw : (isPyWord c || isPySpace c) = true := by
    rw [normChar_iff] at h
    cases hpw : isPyWord c with
    | true => simp
    | false =>
      have hnw : ¬ wordNat c.toNat = true := by
        intro hcon
        rw [isPyWord, hcon] at hpw
        exact Bool.true_eq_false.mp hpw
      rw [wordNat_iff] at hnw
      have hsp : isPySpace c = true := by
        rw [isPySpace, spaceNat_iff]
        omega
      simp [hsp]
  simp [substChar, hw]

theorem pyCasefoldAscii_fixed {c : Char} (h : normChar c = true) :
    pyCasefoldAscii c = c := by
  rw [normChar_iff] at h
  have : ¬(65 ≤ c.toNat && c.toNat ≤ 90) = true := by
    simp only [Bool.and_eq_true, decide_eq_true_eq, not_and]
    omega
  simp [pyCasefoldAscii, this]

theorem collapseWS_cons_of_nospace {c : Char} {rest : List Char}
    (h : isPySpace c = false) : collapseWS (c :: rest) = c :: collapseWS rest := by
  cases rest with
  | nil => simp [collapseWS, h]
  | cons c2 t => simp [collapseWS, h]

theorem collapseWS_fixed :
    ∀ l : List Char, (∀ c ∈ l, normChar c = true) → List.Chain' NotBothSpace l →
      collapseWS l = l := by
  intro l
  induction l with
  | nil => intro _ _; rfl
  | cons c1 l' ih =>
    intro hall hch
    cases l' with
    | nil =>
      cases hs : isPySpace c1 with
      | true =>
        have := normChar_space (hall c1 (List.mem_cons_self ..)) hs
        simp [collapseWS, hs, this]
      | false => simp [collapseWS, hs]
    | cons c2 rest =>
      have hpair : NotBothSpace c1 c2 := (List.chain'_cons.mp hch).1
      have hcond : (isPySpace c1 && isPySpace c2) = false := by
        cases h1 : isPySpace c1 with
        | false => simp
        | true =>
          cases h2 : isPySpace c2 with
          | false => simp
          | true => exact absurd ⟨h1, h2⟩ hpair
      have htail : collapseWS (c2 :: rest) = c2 :: rest :=
        ih (fun d hd => hall d (List.mem_cons_of_mem _ hd)) (List.chain'_cons.mp hch).2
      cases hs : isPySpace c1 with
      | true =>
        have hc1 : c1 = ' ' := normChar_space (hall c1 (List.mem_cons_self ..)) hs
        have hs2 : isPySpace c2 = false := by
          rw [hs] at hcond; simpa using hcond
        simp [collapseWS, hcond, hs, hc1, htail, hs2]
      | false => simp [collapseWS, hcond, hs, htail]

theorem mem_collapseWS {l : List Char} {c : Char} (h : c ∈ collapseWS l) :
    (c ∈ l ∧ isPySpace c = false) ∨ c = ' ' := by
  induction l with
  | nil => simp [collapseWS] at h
  | cons c1 l' ih =>
    cases l' with
    | nil =>
      cases hs : isPySpace c1 with
      | true => simp [collapseWS, hs] at h; right; exact h
      | false =>
        simp [collapseWS, hs] at h
        subst h; exact Or.inl ⟨List.mem_cons_self .., hs⟩
    | cons c2 rest =>
      cases hcond : (isPySpace c1 && isPySpace c2) with
      | true =>
        have heq : collapseWS (c1 :: c2 :: rest) = collapseWS (c2 :: rest) := by
          simp [collapseWS, hcond]
        rw [heq] at h
        rcases ih h with ⟨hm, hns⟩ | he
        · exact Or.inl ⟨List.mem_cons_of_mem _ hm, hns⟩
        · exact Or.inr he
      | false =>
        have heq : collapseWS (c1 :: c2 :: rest) =
            (if isPySpace c1 then ' ' else c1) :: collapseWS (c2 :: rest) := by
          simp [collapseWS, hcond]
        rw [heq] at h
        rcases List.mem_cons.mp h with he | hm
        · cases hs : isPySpace c1 with
          | true => right; rw [hs] at he; simpa using he
          | false =>
            left; rw [hs] at he; simp at he; subst he
            exact ⟨List.mem_cons_self .., hs⟩
        · rcases ih hm with ⟨hm2, hns⟩ | he2
          · exact Or.inl ⟨List.mem_cons_of_mem _ hm2, hns⟩
          · exact Or.inr he2

theorem collapseWS_chain' : ∀ l : List Char, List.Chain' NotBothSpace (collapseWS l) := by
  intro l
  induction l with
  | nil => simp [collapseWS]
  | cons c1 l' ih =>
    cases l' with
    | nil =>
      cases hs : isPySpace c1 <;> simp [collapseWS, hs]
    | cons c2 rest =>
      cases hcond : (isPySpace c1 && isPySpace c2) with
      | true => simpa [collapseWS, hcond] using ih
      | false =>
        have heq : collapseWS (c1 :: c2 :: rest) =
            (if isPySpace c1 then ' ' else c1) :: collapseWS (c2 :: rest) := by
          simp [collapseWS, hcond]
        rw [heq]
        apply List.chain'_cons'.mpr
        refine ⟨?_, ih⟩
        intro y hy
        cases hs1 : isPySpace c1 with
        | false =>
          rw [if_neg (by simp [hs1])]
          exact fun hc => by rw [hs1] at hc; exact absurd hc.1 (by simp)
        | true =>
          have hs2 : isPySpace c2 = false := by
            cases h2 : isPySpace c2
            · rfl
            · rw [hs1, h2] at hcond; simp at hcond
          rw [collapseWS_cons_of_nospace hs2] at hy
          simp only [List.head?_cons, Option.mem_def, Option.some.injEq] at hy
          subst hy
          exact fun hc => by rw [hs2] at hc; exact absurd hc.2 (by simp)

theorem head?_dropWhile_no {p : Char → Bool} {l : List Char} {c : Char}
    (h : (l.dropWhile p).head? = some c) : p c = false := by
  have := List.head?_dropWhile_not p l
  rw [h] at this
  exact this

theorem getLast?_dropWhile {p : Char → Bool} {l : List Char}
    (h : l.dropWhile p ≠ []) : (l.dropWhile p).getLast? = l.getLast? := by
  induction l with
  | nil => simp at h
  | cons a l' ih =>
    cases hp : p a with
    | true =>
      rw [List.dropWhile_cons_of_pos hp] at h ⊢
      have hl' : l' ≠ [] := by
        intro he; rw [he] at h; simp at h
      rcases List.exists_cons_of_ne_nil hl' with ⟨b, t, rfl⟩
      rw [ih h, List.getLast?_cons_cons]
    | false =>
      rw [List.dropWhile_cons_of_neg (by simp [hp])]

theorem dropWhile_fixed {p : Char → Bool} {l : List Char}
    (h : ∀ c, l.head? = some c → p c = false) : l.dropWhile p = l := by
  cases l with
  | nil => rfl
  | cons a t =>
    have := h a rfl
    rw [List.dropWhile_cons_of_neg (by simp [this])]

theorem pyStripList_fixed {l : List Char}
    (h1 : ∀ c, l.head? = some c → isPySpace c = false)
    (h2 : ∀ c, l.getLast? = some c → isPySpace c = false) :
    pyStripList l = l := by
  unfold pyStripList
  rw [dropWhile_fixed h1]
  rw [dropWhile_fixed (by
    intro c hc
    rw [List.head?_reverse] at hc
    exact h2 c hc)]
  exact List.reverse_reverse l

theorem toNat_pyCasefoldAscii (c : Char) :
    (pyCasefoldAscii c).toNat =
      if 65 ≤ c.toNat ∧ c.toNat ≤ 90 then c.toNat + 32 else c.toNat := by
  unfold pyCasefoldAscii
  by_cases h : 65 ≤ c.toNat ∧ c.toNat ≤ 90
  · rw [if_pos (by simp only [Bool.and_eq_true, decide_eq_true_eq]; exact h), if_pos h]
    exact toNat_ofNat_valid (by omega)
  · rw [if_neg (by simp only [Bool.and_eq_true, decide_eq_true_eq]; exact h), if_neg h]

theorem isPySpace_pyCasefoldAscii (c : Char) :
    isPySpace (pyCasefoldAscii c) = isPySpace c := by
  unfold isPySpace
  rw [toNat_pyCasefoldAscii]
  by_cases h : 65 ≤ c.toNat ∧ c.toNat ≤ 90
  · rw [if_pos h]
    have ha : spaceNat (c.toNat + 32) = false := by
      rw [Bool.eq_false_iff, Ne, spaceNat_iff]; omega
    have hb : spaceNat c.toNat = false := by
      rw [Bool.eq_false_iff, Ne, spaceNat_iff]; omega
    rw [ha, hb]
  · rw [if_neg h]

theorem mem_pyStripList {l : List Char} {c : Char} (h : c ∈ pyStripList l) :
    c ∈ l := by
  unfold pyStripList at h
  have h1 := List.mem_reverse.mp h
  have h2 := (List.dropWhile_sublist _).subset h1
  have h3 := List.mem_reverse.mp h2
  exact (List.dropWhile_sublist _).subset h3

theorem chain'_reverse_nbs {l : List Char} (h : List.Chain' NotBothSpace l) :
    List.Chain' NotBothSpace l.reverse := by
  rw [List.chain'_reverse]
  exact h.imp fun a b hab => fun hc => hab ⟨hc.2, hc.1⟩

theorem normList_invariant (cs : List Char) : NormInv (normList cs) := by
  have hm1 : ∀ c ∈ List.map substChar (asciiNFD cs),
      c.toNat < 128 ∧ (isPyWord c || isPySpace c) = true := by
    intro c hc
    rcases List.mem_map.mp hc with ⟨d, hd, rfl⟩
    have hdlt : d.toNat < 128 := mem_asciiNFD_ascii hd
    by_cases hw : (isPyWord d || isPySpace d) = true
    · unfold substChar; rw [if_pos hw]; exact ⟨hdlt, hw⟩
    · unfold substChar; rw [if_neg hw]
      exact ⟨by decide, by decide⟩
  have hm2 : ∀ c ∈ collapseWS (List.map substChar (asciiNFD cs)),
      (c.toNat < 128 ∧ isPyWord c = true ∧ isPySpace c = false) ∨ c = ' ' := by
    intro c hc
    rcases mem_collapseWS hc with ⟨hm, hns⟩ | he
    · rcases hm1 c hm with ⟨hlt, hws⟩
      rcases (by simpa using hws : isPyWord c = true ∨ isPySpace c = true) with hw | hs
      · exact Or.inl ⟨hlt, hw, hns⟩
      · rw [hns] at hs; exact absurd hs (by simp)
    · exact Or.inr he
  have hm3 : ∀ c ∈ List.map pyCasefoldAscii
      (collapseWS (List.map substChar (asciiNFD cs))), normChar c = true := by
    intro c hc
    rcases List.mem_map.mp hc with ⟨d, hd, rfl⟩
    rcases hm2 d hd with ⟨hlt, hw, _⟩ | he
    · rw [normChar_iff, toNat_pyCasefoldAscii]
      rw [isPyWord, wordNat_iff] at hw
      by_cases hu : 65 ≤ d.toNat ∧ d.toNat ≤ 90
      · rw [if_pos hu]; omega
      · rw [if_neg hu]; omega
    · subst he; decide
  have hch3 : List.Chain' NotBothSpace (List.map pyCasefoldAscii
      (collapseWS (List.map substChar (asciiNFD cs)))) := by
    apply List.chain'_map_of_chain' pyCasefoldAscii ?_ (collapseWS_chain' _)
    intro a b hab hc
    rw [isPySpace_pyCasefoldAscii, isPySpace_pyCasefoldAscii] at hc
    exact hab hc
  refine ⟨?_, ?_, ?_, ?_⟩
  · intro c hc
    exact hm3 c (mem_pyStripList hc)
  · unfold normList pyStripList
    apply chain'_reverse_nbs
    apply List.Chain'.suffix ?_ (List.dropWhile_suffix isPySpace)
    apply chain'_reverse_nbs
    exact List.Chain'.suffix hch3 (List.dropWhile_suffix isPySpace)
  · intro c hc
    unfold normList pyStripList at hc
    rw [List.head?_reverse] at hc
    have hYne : ((List.map pyCasefoldAscii (collapseWS (List.map substChar
        (asciiNFD cs)))).dropWhile isPySpace).reverse.dropWhile isPySpace ≠ [] := by
      intro he; rw [he] at hc; simp at hc
    rw [getLast?_dropWhile hYne, List.getLast?_reverse] at hc
    exact head?_dropWhile_no hc
  · intro c hc
    unfold normList pyStripList at hc
    rw [List.getLast?_reverse] at hc
    exact head?_dropWhile_no hc

theorem normList_fixed {l : List Char} (h : NormInv l) : normList l = l := by
  obtain ⟨hall, hch, hhead, hlast⟩ := h
  unfold normList
  rw [asciiNFD_ascii (fun c hc => by
    have := (normChar_iff).mp (hall c hc)
    omega)]
  rw [List.map_congr_left (fun c hc => substChar_fixed (hall c hc)), List.map_id']
  rw [collapseWS_fixed l hall hch]
  rw [List.map_congr_left (fun c hc => pyCasefoldAscii_fixed (hall c hc)), List.map_id']
  exact pyStripList_fixed hhead hlast

/-- C3: `_normalize_token` is idempotent, and case- and accent-insensitive
on the specification's example pair `"É Têstê"` / `"e teste"`. -/
theorem normalize_token_idempotent_caseless :
    (∀ s : String, _normalize_token (_normalize_token s) = _normalize_token s) ∧
    _normalize_token "É Têstê" = _normalize_token "e teste" := by
  constructor
  · intro s
    have h1 : _normalize_token (_normalize_token s) =
        String.mk (normList (normList s.data)) := rfl
    rw [h1, normList_fixed (normList_invariant s.data)]
    rfl
  · decide

/-! Rows: Python dicts `column label → cell text`, embedded as
insertion-ordered association lists. -/

/-- A parsed row: dict from column label to cell text. -/
def Row := List (String × String)

instance : DecidableEq Row := inferInstanceAs (DecidableEq (List (String × String)))

instance : Repr Row := inferInstanceAs (Repr (List (String × String)))

instance : Membership (String × String) Row := inferInstanceAs (Membership _ (List _))

/-- `dict.get(key)` (`None` when absent). -/
def rowGet : Row → String → Option String
  | [], _ => none
  | (k', v) :: t, k => if k' = k then some v else rowGet t k

/-- `dict[key] = value`: replace in place, else append. -/
def rowSet : Row → String → String → Row
  | [], k, v => [(k, v)]
  | (k', v') :: t, k, v =>
    if k' = k then (k, v) :: t else (k', v') :: rowSet t k v

/-- Python truthiness of an optional string (`None` and `""` are falsy). -/
def truthyOpt : Option String → Bool
  | none => false
  | some s => !s.isEmpty

/-- `sep.join(parts)`. -/
def pyJoin (sep : String) : List String → String
  | [] => ""
  | [x] => x
  | x :: y :: rest => x ++ sep ++ pyJoin sep (y :: rest)

/-! `re.split` with the delimiter patterns used by the parsers. A
delimiter function receives the head character and the remaining text and
returns how many further characters the (leftmost, greedy) delimiter
match consumes, or `none` if no delimiter starts here. -/

/-- Generic `re.split`: scan left to right, cutting at each delimiter
match. Structural recursion on a fuel bounded by the text length (each
step consumes at least one character, so the fuel never runs out). -/
def reSplitFuel (delim : Char → List Char → Option Nat) :
    Nat → List Char → List Char → List (List Char)
  | _, [], curr => [curr.reverse]
  | 0, _ :: _, curr => [curr.reverse]
  | fuel + 1, c :: rest, curr =>
    match delim c rest with
    | some n => curr.reverse :: reSplitFuel delim fuel (rest.drop n) []
    | none => reSplitFuel delim fuel rest (c :: curr)

/-- Generic `re.split` over a whole character list. -/
def reSplitAux (delim : Char → List Char → Option Nat)
    (cs curr : List Char) : List (List Char) :=
  reSplitFuel delim cs.length cs curr

/-- `str.split(sep)` for a one-character separator, at the list level. -/
def splitOnChar (sep : Char) : List Char → List Char → List (List Char)
  | [], curr => [curr.reverse]
  | c :: rest, curr =>
    if c = sep then curr.reverse :: splitOnChar sep rest []
    else splitOnChar sep rest (c :: curr)

/-- Delimiter of `r"\n+|[ ]\s*|\s{2,}"` (sub-column split inside
`_parse_google_table`): a newline run, NBSP followed by whitespace, or a
whitespace run of length at least 2. -/
def cellDelim (c : Char) (rest : List Char) : Option Nat :=
  if c = '\n' then some (rest.takeWhile (fun d => d = '\n')).length
  else if c.toNat = 160 then some (rest.takeWhile isPySpace).length
  else if isPySpace c then
    let k := (rest.takeWhile isPySpace).length
    if 1 ≤ k then some k else none
  else none

/-- Delimiter of `r"\||\t|\s{2,}"` (column split in the plain-text parser). -/
def tpDelim (c : Char) (rest : List Char) : Option Nat :=
  if c = '|' then some 0
  else if c = '\t' then some 0
  else if isPySpace c then
    let k := (rest.takeWhile isPySpace).length
    if 1 ≤ k then some k else none
  else none

/-- Delimiter of `r"\s{2,}"`. -/
def ws2Delim (c : Char) (rest : List Char) : Option Nat :=
  if isPySpace c then
    let k := (rest.takeWhile isPySpace).length
    if 1 ≤ k then some k else none
  else none

/-- Delimiter of `r"\\n+|[\\u00A0]\s*|\s{2,}"` (sub-column split in the
plain-text parser). In this raw pattern the doubled backslashes make
`\\n+` a literal backslash followed by `n`s, and `[\\u00A0]` the character
class `{'\\', 'u', '0', 'A'}` — the embedding reproduces that faithfully. -/
def plainCellDelim (c : Char) (rest : List Char) : Option Nat :=
  if c = '\\' then
    let k := (rest.takeWhile (fun d => d = 'n')).length
    if 1 ≤ k then some k else some (rest.takeWhile isPySpace).length
  else if c = 'u' || c = '0' || c = 'A' then some (rest.takeWhile isPySpace).length
  else if isPySpace c then
    let k := (rest.takeWhile isPySpace).length
    if 1 ≤ k then some k else none
  else none

/-- `[p.strip() for p in re.split(pattern, s) if p.strip()]`. -/
def splitStripFilter (delim : Char → List Char → Option Nat) (s : String) :
    List String :=
  ((reSplitAux delim s.data []).map (fun l => String.mk (pyStripList l))).filter
    (fun p => !p.isEmpty)

/-- `[p.strip() for p in s.split(sep) if p.strip()]`. -/
def splitOnStripFilter (sep : Char) (s : String) : List String :=
  ((splitOnChar sep s.data []).map (fun l => String.mk (pyStripList l))).filter
    (fun p => !p.isEmpty)

/-- Header synthesis of `_parse_google_table`: blank header cells become
`Coluna N`. -/
def mkHeaders (cells : List String) : List String :=
  cells.mapIdx (fun idx cell => if cell.isEmpty then "Coluna " ++ toString (idx + 1) else cell)

/-- Timetable test of `_parse_google_table`: the first header normalizes
to something containing `"hor"`. -/
def isTimetableHeader (headers : List String) : Bool :=
  match headers with
  | [] => false
  | h0 :: _ =>
    let fhn := _normalize_token h0
    pyIn "hor" fhn || pyIn "horario" fhn

/-- Attach the `Coluna N` sub-column fields obtained by splitting the cell. -/
def addColunas (base : Row) (parts : List String) : Row :=
  parts.enum.foldl (fun r p => rowSet r ("Coluna " ++ toString (p.1 + 1)) p.2) base

/-- One exploded timetable row of `_parse_google_table` (day column `idx`). -/
def googleTimetableCell (context time_range day_header cell_text : String) : Row :=
  addColunas
    [("context", context), ("_row_text", cell_text),
     ("Horário", time_range), ("Dia", day_header)]
    (splitStripFilter cellDelim cell_text)

/-- Rows produced from one `<tr>` by `_parse_google_table`. -/
def googleRowsOfTr (context : String) (headers : List String)
    (is_timetable : Bool) (values : List String) : List Row :=
  if !values.any (fun v => !v.isEmpty) then []
  else if is_timetable && values.length ≥ 2 then
    let time_range := values.headD ""
    (List.range' 1 (min headers.length values.length - 1)).filterMap (fun idx =>
      let day_header := headers.getD idx ""
      let cell_text := values.getD idx ""
      if cell_text.isEmpty then none
      else some (googleTimetableCell context time_range day_header cell_text))
  else
    [headers.enum.foldl
      (fun r p => rowSet r p.2 (if p.1 < values.length then values.getD p.1 "" else ""))
      [("context", context), ("_row_text", pyJoin " | " values)]]

/-- `parsers._parse_google_table`. The BeautifulSoup boundary is a list of
`<tr>` rows, each a list of cell texts (`get_text` with `strip=True`), and
the `context` string computed by `_extract_table_context`. -/
def _parse_google_table (context : String) (trs : List (List String)) : List Row :=
  match trs with
  | [] => []
  | headerCells :: dataRows =>
    let headers := mkHeaders headerCells
    let is_timetable := isTimetableHeader headers
    dataRows.flatMap (googleRowsOfTr context headers is_timetable)

/-! Plain-text fallback parser. -/

/-- Line-break characters of `str.splitlines()`. -/
def isLineBreak (c : Char) : Bool :=
  c.toNat = 10 || c.toNat = 13 || c.toNat = 11 || c.toNat = 12 ||
  c.toNat = 28 || c.toNat = 29 || c.toNat = 30 || c.toNat = 133 ||
  c.toNat = 0x2028 || c.toNat = 0x2029

/-- `str.splitlines()` (`\r\n` counts as one break; no trailing empty line). -/
def splitLinesAux : List Char → List Char → List (List Char)
  | [], curr => if curr.isEmpty then [] else [curr.reverse]
  | '\r' :: '\n' :: rest, curr => curr.reverse :: splitLinesAux rest []
  | c :: rest, curr =>
    if isLineBreak c then curr.reverse :: splitLinesAux rest []
    else splitLinesAux rest (c :: curr)

/-- Word-character runs of a string (the `\w+` matches of `re.findall`). -/
def wordRunsAux : List Char → List Char → List (List Char)
  | [], curr => if curr.isEmpty then [] else [curr.reverse]
  | c :: rest, curr =>
    if isPyWord c then wordRunsAux rest (c :: curr)
    else if curr.isEmpty then wordRunsAux rest []
    else curr.reverse :: wordRunsAux rest []

/-- `re.findall(r"\w+", s)`. -/
def pyFindallWords (s : String) : List String :=
  (wordRunsAux s.data []).map String.mk

/-- `re.search(rf"\b{tok}\b", s)` for a token made of word characters:
the token occurs as a maximal word run. -/
def containsWordTok (tok : String) (s : String) : Bool :=
  (wordRunsAux s.data []).contains tok.data

/-- Header test of `_parse_plain_rows_from_doc`: the normalized line
matches `r"\bhor(?:\.|ario)?\b"` (on normalized text `hor.` is impossible,
so this is a word `hor` or `horario`) and mentions an early weekday. -/
def isTimetableHeaderLine (line : String) : Bool :=
  let n := _normalize_token line
  (containsWordTok "hor" n || containsWordTok "horario" n) &&
    (pyIn "segunda" n || pyIn "terca" n || pyIn "quarta" n)

/-- One exploded timetable row of `_parse_plain_rows_from_doc`. -/
def plainTimetableCell (time_range day cell_text : String) : Row :=
  addColunas
    [("context", ""), ("_row_text", cell_text),
     ("Horário", time_range), ("Dia", day)]
    (splitStripFilter plainCellDelim cell_text)

/-- Timetable rows from one data line of `_parse_plain_rows_from_doc`. -/
def plainRowsOfLine (cols : List String) (line : String) : List Row :=
  let parts := splitStripFilter tpDelim line
  if parts.length < 2 then []
  else
    let time_range := parts.headD ""
    (List.range' 1 (min cols.length parts.length - 1)).filterMap (fun i =>
      let day := cols.getD i ""
      let cell_text := parts.getD i ""
      if cell_text.isEmpty then none
      else some (plainTimetableCell time_range day cell_text))

/-- Generic row from one line of `_parse_plain_rows_from_doc` (no
timetable header found). -/
def plainGenericRow (line : String) : List Row :=
  let parts :=
    if pyIn "|" line then splitOnStripFilter '|' line
    else if pyIn "\t" line then splitOnStripFilter '\t' line
    else splitStripFilter ws2Delim line
  if parts.length < 2 then []
  else if !parts.any (fun p => p.data.any isPyWord) then []
  else
    [parts.enum.foldl (fun r p => rowSet r ("Coluna " ++ toString (p.1 + 1)) p.2)
      [("_row_text", pyJoin " | " parts)]]

/-- The stripped, non-blank lines of the document text:
`[line.strip() for line in text.splitlines() if line.strip()]`. -/
def plainLines (text : String) : List String :=
  ((splitLinesAux text.data []).map
    (fun l => String.mk (pyStripList l))).filter (fun l => !l.isEmpty)

/-- `parsers._parse_plain_rows_from_doc`. The BeautifulSoup boundary is
`doc_soup.get_text(separator="\n")`, taken here as the input string. -/
def _parse_plain_rows_from_doc (text : String) : List Row :=
  match (plainLines text).findIdx? isTimetableHeaderLine with
  | some header_idx =>
    let header_line := (plainLines text).getD header_idx ""
    let cols := splitStripFilter tpDelim header_line
    ((plainLines text).drop (header_idx + 1)).flatMap (plainRowsOfLine cols)
  | none => (plainLines text).flatMap plainGenericRow

/-! Row lemmas. -/

theorem rowGet_rowSet_ne {r : Row} {k k' v} (h : k' ≠ k) :
    rowGet (rowSet r k v) k' = rowGet r k' := by
  have hne : ¬ k = k' := fun hh => h hh.symm
  induction r with
  | nil => simp [rowSet, rowGet, hne]
  | cons p t ih =>
    by_cases hp : p.1 = k
    · simp only [rowSet, hp, if_pos rfl]
      simp [rowGet, hne, hp]
    · simp only [rowSet, if_neg hp]
      by_cases hq : p.1 = k'
      · simp [rowGet, hq]
      · simp [rowGet, hq, ih]

theorem rowGet_foldl_rowSet {α : Type} (f g : α → String) (k : String) :
    ∀ (ps : List α) (b : Row), (∀ p ∈ ps, f p ≠ k) →
      rowGet (ps.foldl (fun r p => rowSet r (f p) (g p)) b) k = rowGet b k := by
  intro ps
  induction ps with
  | nil => intro b _; rfl
  | cons p t ih =>
    intro b hne
    have h1 : rowGet (rowSet b (f p) (g p)) k = rowGet b k := by
      rw [rowGet_rowSet_ne (fun hh => hne p (List.mem_cons_self ..) hh.symm)]
    simpa [List.foldl_cons, ih (rowSet b (f p) (g p))
      (fun q hq => hne q (List.mem_cons_of_mem _ hq))] using h1

theorem rowText_ne_coluna (n : Nat) : "_row_text" ≠ "Coluna " ++ toString n := by
  intro h
  have hd : "_row_text".data = "Coluna ".data ++ (toString n).data := by
    rw [← String.data_append, ← h]
  have h1 : "_row_text".data = '_' :: "row_text".data := rfl
  have h2 : "Coluna ".data = 'C' :: "oluna ".data := rfl
  rw [h1, h2] at hd
  simp only [List.cons_append, List.cons.injEq] at hd
  exact absurd hd.1 (by decide)

theorem rowGet_addColunas {base : Row} {parts : List String}
    (hk : ∀ n : Nat, ("_row_text" : String) ≠ "Coluna " ++ toString n) :
    rowGet (addColunas base parts) "_row_text" = rowGet base "_row_text" := by
  unfold addColunas
  exact rowGet_foldl_rowSet (fun p => "Coluna " ++ toString (p.1 + 1)) Prod.snd
    "_row_text" parts.enum base (fun p _ => fun hh => hk (p.1 + 1) hh.symm)

theorem pyJoin_two_ne_empty (x y : String) (rest : List String) :
    pyJoin " | " (x :: y :: rest) ≠ "" := by
  intro he
  have := congrArg String.length he
  rw [pyJoin, String.length_append, String.length_append] at this
  have h3 : (" | " : String).length = 3 := rfl
  rw [h3] at this
  simp at this

theorem pyJoin_any_ne_empty {values : List String}
    (h : values.any (fun v => !v.isEmpty) = true) : pyJoin " | " values ≠ "" := by
  match values with
  | [] => simp at h
  | [x] =>
    simp only [List.any_cons, List.any_nil, Bool.or_false, Bool.not_eq_true'] at h
    intro he
    have hx : pyJoin " | " [x] = x := rfl
    rw [hx] at he
    rw [he] at h
    exact absurd h (by decide)
  | x :: y :: rest => exact pyJoin_two_ne_empty x y rest

theorem truthyOpt_some_ne {s : String} (h : s ≠ "") :
    truthyOpt (some s) = true := by
  have hdef : truthyOpt (some s) = !s.isEmpty := rfl
  rw [hdef]
  cases he : s.isEmpty with
  | false => rfl
  | true => exact absurd ((String.isEmpty_iff s).mp he) h

/-- Rows of the google-table timetable branch carry the (non-empty) cell
text as `_row_text`. -/
theorem googleTimetableCell_row_text (context time_range day_header cell : String)
    (h : cell ≠ "") :
    truthyOpt (rowGet (googleTimetableCell context time_range day_header cell)
      "_row_text") = true := by
  unfold googleTimetableCell
  rw [rowGet_addColunas rowText_ne_coluna]
  exact truthyOpt_some_ne h

theorem plainTimetableCell_row_text (time_range day cell : String) (h : cell ≠ "") :
    truthyOpt (rowGet (plainTimetableCell time_range day cell) "_row_text") = true := by
  unfold plainTimetableCell
  rw [rowGet_addColunas rowText_ne_coluna]
  exact truthyOpt_some_ne h

theorem googleRowsOfTr_row_text {context : String} {headers : List String}
    {istt : Bool} {values : List String} {row : Row}
    (hhead : "_row_text" ∉ headers)
    (hmem : row ∈ googleRowsOfTr context headers istt values) :
    truthyOpt (rowGet row "_row_text") = true := by
  unfold googleRowsOfTr at hmem
  cases han : values.any (fun v => !v.isEmpty) with
  | false => rw [han] at hmem; simp at hmem
  | true =>
    rw [han] at hmem
    simp only [Bool.not_true, Bool.false_eq_true, if_false] at hmem
    by_cases h2 : (istt && values.length ≥ 2) = true
    · rw [if_pos h2] at hmem
      rw [List.mem_filterMap] at hmem
      obtain ⟨idx, _, heq⟩ := hmem
      cases hce : (values.getD idx "").isEmpty with
      | true => rw [hce] at heq; simp at heq
      | false =>
        rw [hce] at heq
        simp only [Bool.false_eq_true, if_false, Option.some.injEq] at heq
        rw [← heq]
        refine googleTimetableCell_row_text _ _ _ _ (fun he => ?_)
        rw [he] at hce
        exact absurd hce (by decide)
    · rw [if_neg h2] at hmem
      have hrow := List.mem_singleton.mp hmem
      have hne : ∀ p ∈ headers.enum, (p : Nat × String).2 ≠ "_row_text" :=
        fun p hp hh => hhead (by rw [← hh]; exact List.snd_mem_of_mem_enum hp)
      have hfold : rowGet (headers.enum.foldl
          (fun r p => rowSet r p.2
            (if p.1 < values.length then values.getD p.1 "" else ""))
          [("context", context), ("_row_text", pyJoin " | " values)]) "_row_text"
          = rowGet [("context", context), ("_row_text", pyJoin " | " values)]
              "_row_text" :=
        rowGet_foldl_rowSet Prod.snd
          (fun p => if p.1 < values.length then values.getD p.1 "" else "")
          "_row_text" headers.enum _ hne
      rw [hrow, hfold]
      have hbase : rowGet [("context", context),
          ("_row_text", pyJoin " | " values)] "_row_text"
          = some (pyJoin " | " values) := rfl
      rw [hbase]
      exact truthyOpt_some_ne (pyJoin_any_ne_empty han)

theorem plainRowsOfLine_row_text {cols : List String} {line : String} {row : Row}
    (hmem : row ∈ plainRowsOfLine cols line) :
    truthyOpt (rowGet row "_row_text") = true := by
  unfold plainRowsOfLine at hmem
  by_cases hlen : (splitStripFilter tpDelim line).length < 2
  · rw [if_pos hlen] at hmem; simp at hmem
  · rw [if_neg hlen] at hmem
    rw [List.mem_filterMap] at hmem
    obtain ⟨i, _, heq⟩ := hmem
    simp only [] at heq
    cases hce : ((splitStripFilter tpDelim line).getD i "").isEmpty with
    | true => rw [hce] at heq; simp at heq
    | false =>
      rw [hce] at heq
      simp only [Bool.false_eq_true, if_false, Option.some.injEq] at heq
      rw [← heq]
      refine plainTimetableCell_row_text _ _ _ (fun he => ?_)
      rw [he] at hce
      exact absurd hce (by decide)

theorem plainGenericRow_row_text {line : String} {row : Row}
    (hmem : row ∈ plainGenericRow line) :
    truthyOpt (rowGet row "_row_text") = true := by
  unfold plainGenericRow at hmem
  set parts := (if pyIn "|" line then splitOnStripFilter '|' line
    else if pyIn "\t" line then splitOnStripFilter '\t' line
    else splitStripFilter ws2Delim line) with hparts
  by_cases hlen : parts.length < 2
  · rw [if_pos hlen] at hmem; simp at hmem
  · rw [if_neg hlen] at hmem
    by_cases hw : (!parts.any fun p => p.data.any isPyWord) = true
    · rw [if_pos hw] at hmem; simp at hmem
    · rw [if_neg hw] at hmem
      have hrow := List.mem_singleton.mp hmem
      have hfold : rowGet (parts.enum.foldl
          (fun r p => rowSet r ("Coluna " ++ toString (p.1 + 1)) p.2)
          [("_row_text", pyJoin " | " parts)]) "_row_text"
          = rowGet [("_row_text", pyJoin " | " parts)] "_row_text" :=
        rowGet_foldl_rowSet (fun p => "Coluna " ++ toString (p.1 + 1)) Prod.snd
          "_row_text" parts.enum _
          (fun p _ hh => rowText_ne_coluna (p.1 + 1) hh.symm)
      rw [hrow, hfold]
      have hbase : rowGet [("_row_text", pyJoin " | " parts)] "_row_text"
          = some (pyJoin " | " parts) := rfl
      rw [hbase]
      match hp : parts with
      | [] => rw [hp] at hlen; exact absurd (by simp) hlen
      | [x] => rw [hp] at hlen; exact absurd (by simp) hlen
      | x :: y :: rest => exact truthyOpt_some_ne (pyJoin_two_ne_empty x y rest)

/-- C6 counterexample: a table whose header row contains a cell literally
named `_row_text` lets the generic branch of `_parse_google_table`
overwrite the fallback text with the empty string. -/
theorem google_table_empty_row_text_cex :
    ¬ (∀ row ∈ _parse_google_table "" [["a", "_row_text"], ["hello"]],
        truthyOpt (rowGet row "_row_text") = true) := by
  decide

/-- C6 (amended): every row produced by `_parse_plain_rows_from_doc` has a
non-empty `_row_text`; the same holds for `_parse_google_table` provided
no header-row cell text is literally `_row_text`. -/
theorem parsed_rows_nonempty_row_text :
    (∀ (context : String) (trs : List (List String)) (row : Row),
      "_row_text" ∉ mkHeaders (trs.headD []) →
      row ∈ _parse_google_table context trs →
      truthyOpt (rowGet row "_row_text") = true) ∧
    (∀ (text : String) (row : Row),
      row ∈ _parse_plain_rows_from_doc text →
      truthyOpt (rowGet row "_row_text") = true) := by
  constructor
  · intro context trs row hhead hmem
    match trs with
    | [] => simp [_parse_google_table] at hmem
    | headerCells :: dataRows =>
      unfold _parse_google_table at hmem
      rw [List.mem_flatMap] at hmem
      obtain ⟨tr, _, hmem⟩ := hmem
      exact googleRowsOfTr_row_text (by simpa using hhead) hmem
  · intro text row hmem
    unfold _parse_plain_rows_from_doc at hmem
    split at hmem
    · rw [List.mem_flatMap] at hmem
      obtain ⟨line, _, hmem⟩ := hmem
      exact plainRowsOfLine_row_text hmem
    · rw [List.mem_flatMap] at hmem
      obtain ⟨line, _, hmem⟩ := hmem
      exact plainGenericRow_row_text hmem

theorem parsed_rows_nonempty_row_text_witness :
    truthyOpt (rowGet [("context", ""), ("_row_text", "Ana | B1"),
      ("Nome", "Ana"), ("Sala", "B1")] "_row_text") = true ∧
    truthyOpt (rowGet [("_row_text", "x | y"), ("Coluna 1", "x"),
      ("Coluna 2", "y")] "_row_text") = true :=
  ⟨parsed_rows_nonempty_row_text.1 "" [["Nome", "Sala"], ["Ana", "B1"]] _
      (by decide) (by decide),
    parsed_rows_nonempty_row_text.2 "x\ty" _ (by decide)⟩

/-- C4: the specification's round-trip example — a timetable with header
`["Horário","Segunda","Terça"]` and one data row explodes into exactly two
rows, one per day column, both carrying the row's time range. -/
theorem parse_google_table_timetable_example (context : String) :
    ∃ r1 r2 : Row,
      _parse_google_table context
        [["Horário", "Segunda", "Terça"],
         ["08:00-10:00", "Cálculo I - Prof. X", "Física I - Prof. Y"]] = [r1, r2] ∧
      rowGet r1 "Dia" = some "Segunda" ∧ rowGet r2 "Dia" = some "Terça" ∧
      rowGet r1 "Horário" = some "08:00-10:00" ∧
      rowGet r2 "Horário" = some "08:00-10:00" :=
  ⟨_, _, rfl, rfl, rfl, rfl, rfl⟩

/-! `modules/alocacoes.py`: schedule parsing, row matching, and the
professor search over the allocation cache. -/

/-- Python `str.lower()` on the ASCII and Latin-1 letters that occur in
the data. -/
def pyLowerChar (c : Char) : Char :=
  if (65 ≤ c.toNat && c.toNat ≤ 90) ||
      (192 ≤ c.toNat && c.toNat ≤ 222 && !(c.toNat = 215)) then
    Char.ofNat (c.toNat + 32)
  else c

/-- `str.lower()`. -/
def pyLower (s : String) : String :=
  String.mk (s.data.map pyLowerChar)

/-- Maximal runs of characters satisfying `p`. -/
def runsAux (p : Char → Bool) : List Char → List Char → List (List Char)
  | [], curr => if curr.isEmpty then [] else [curr.reverse]
  | c :: rest, curr =>
    if p c then runsAux p rest (c :: curr)
    else if curr.isEmpty then runsAux p rest []
    else curr.reverse :: runsAux p rest []

/-- `str.split()` with no argument: split on whitespace runs, no empties. -/
def pySplitWhitespace (s : String) : List String :=
  (runsAux (fun c => !isPySpace c) s.data []).map String.mk

/-- `int(str)`: strip, optional sign, decimal digits (the underscore
digit-separators Python also accepts do not occur here). -/
def parsePyInt (l : List Char) : Option Int :=
  let t := pyStripList l
  match t with
  | '-' :: ds =>
    if !ds.isEmpty && ds.all Char.isDigit then some (-(natOfDigits ds : Int)) else none
  | '+' :: ds =>
    if !ds.isEmpty && ds.all Char.isDigit then some (natOfDigits ds) else none
  | ds =>
    if !ds.isEmpty && ds.all Char.isDigit then some (natOfDigits ds) else none
where
  natOfDigits (ds : List Char) : Nat :=
    ds.foldl (fun a c => a * 10 + (c.toNat - 48)) 0

/-- Zero-padded two-digit decimal rendering (`f"{n:02d}"` for `n ≥ 0`). -/
def fmt02 (n : Nat) : String :=
  if n < 10 then "0" ++ toString n else toString n

/-- Result of `_parse_horario_param`. -/
structure HorarioParsed where
  week : Bool
  days : List String
  time : Option String
  all_times : Bool
  raw : String
deriving DecidableEq

/-- Weekday tags, in Python `date.weekday()` order. -/
def days_pt : List String :=
  ["segunda", "terca", "quarta", "quinta", "sexta", "sabado", "domingo"]

/-- The `all_time_tokens` list of `_parse_horario_param`. -/
def allTimeTokens : List String :=
  ["dia todo", "dia inteiro", "turno todo", "turno inteiro", "turno completo",
   "todos os horarios", "todos os horários", "todos horarios", "todos os turnos",
   "horario integral", "horário integral"]

/-- The `weekday_map` dict of `_parse_horario_param` in insertion order. -/
def weekdayMap : List (String × String) :=
  [("segunda", "segunda"), ("segunda-feira", "segunda"),
   ("terca", "terca"), ("terça", "terca"), ("terca-feira", "terca"),
   ("quarta", "quarta"), ("quarta-feira", "quarta"),
   ("quinta", "quinta"), ("quinta-feira", "quinta"),
   ("sexta", "sexta"), ("sexta-feira", "sexta"),
   ("sabado", "sabado"), ("sábado", "sabado"),
   ("domingo", "domingo")]

/-- The leftmost match of `re.search(r"(\d{1,2}[:hH]?\d{0,2})", s)`:
one or two digits, an optional `:`/`h`/`H`, then up to two digits. Every
part after the first digit can match empty, so the greedy scan needs no
backtracking. -/
def findTimeTok : List Char → Option (List Char)
  | [] => none
  | c :: rest =>
    if c.isDigit then
      let d2 := (rest.takeWhile Char.isDigit).take 1
      let rest2 := rest.drop d2.length
      let sep := match rest2 with
        | x :: _ => if x = ':' || x = 'h' || x = 'H' then [x] else []
        | [] => []
      let rest3 := rest2.drop sep.length
      let d3 := (rest3.takeWhile Char.isDigit).take 2
      some (c :: d2 ++ sep ++ d3)
    else findTimeTok rest

/-- Normalization of the matched time token to `HH:MM`
(`t.replace("h", ":").replace("H", ":")` and the zero-padding branches). -/
def formatTimeTok (g : List Char) : String :=
  let t := g.map (fun c => if c = 'h' || c = 'H' then ':' else c)
  if !t.contains ':' then fmt02 (parsePyInt.natOfDigits t) ++ ":00"
  else
    match splitOnChar ':' t [] with
    | [] => ""
    | [p0] => fmt02 (parsePyInt.natOfDigits p0) ++ ":00"
    | p0 :: p1 :: _ =>
      fmt02 (parsePyInt.natOfDigits p0) ++ ":" ++ fmt02 (parsePyInt.natOfDigits p1)

/-- `alocacoes._parse_horario_param`. `today` is `date.today().weekday()`. -/
def _parse_horario_param (today : Fin 7) (horario : Option String) : HorarioParsed :=
  match horario with
  | none => ⟨false, [], none, false, ""⟩
  | some h =>
    if h.isEmpty then ⟨false, [], none, false, ""⟩
    else
      let norm := _normalize_token h
      let week := pyIn "semana" norm || pyIn "semana inteira" norm ||
        pyIn "semana todo" norm
      let all_times := allTimeTokens.any (fun t => pyIn t norm)
      let days0 : List String := []
      let days1 := if pyIn "hoje" norm then [days_pt.getD today.val ""] else days0
      let days2 := if pyIn "amanha" norm || pyIn "amanhã" norm then
          [days_pt.getD ((today.val + 1) % 7) ""]
        else days1
      let days_found := weekdayMap.filterMap
        (fun kv => if pyIn kv.1 norm then some kv.2 else none)
      let days := if !days_found.isEmpty then days_found else days2
      let time := (findTimeTok h.data).map formatTimeTok
      ⟨week, days, time, all_times, norm⟩

/-- `a or b or ... or ""` over optional strings (first truthy value). -/
def firstTruthy : List (Option String) → String
  | [] => ""
  | x :: rest =>
    match x with
    | some s => if !s.isEmpty then s else firstTruthy rest
    | none => firstTruthy rest

/-- `alocacoes._row_matches_schedule`. -/
def _row_matches_schedule (row : Row) (hp : HorarioParsed) : Bool :=
  let texto := _normalize_token ((rowGet row "_row_text").getD "")
  let daysReject : Bool :=
    !hp.week && !hp.days.isEmpty &&
      !(hp.days.any (fun d => pyIn d (_normalize_token ((rowGet row "Dia").getD "")))) &&
      !(hp.days.any (fun d => pyIn d texto))
  if daysReject then false
  else
    let timeReject : Bool :=
      match hp.time with
      | none => false
      | some tf =>
        if hp.week || tf.isEmpty then false
        else
          let hh := (splitOnChar ':' tf.data []).headD []
          let horario_field := _normalize_token (firstTruthy
            [rowGet row "Horário", rowGet row "Horario", rowGet row "Turno"])
          let ok : Bool :=
            if pyIn tf horario_field || pyIn tf texto then true
            else
              match parsePyInt hh with
              | some n =>
                containsWordTok (toString n) texto ||
                  pyIn (String.mk hh ++ "h") texto
              | none => pyIn (String.mk hh) texto
          !ok
    if timeReject then false else true

/-- Room-label keys probed by the formatter and the search. -/
def blocoKeys : List String :=
  ["Bloco", "Bloco/Sala", "Bloco / Sala", "Sala", "Sala/Lab", "Sala / Laboratório"]

/-- Time-label keys probed by the formatter and the search. -/
def horarioKeys : List String := ["Horário", "Horario", "Turno", "Dia/Horário"]

/-- Keys excluded from the `detalhes` sweep of `_format_row_string`. -/
def formatSkipKeys : List String :=
  ["context", "_row_text", "Bloco", "Bloco/Sala", "Bloco / Sala", "Sala",
   "Sala/Lab", "Sala / Laboratório", "Horário", "Horario", "Turno",
   "Dia/Horário", "Dia", "Professor"]

/-- `chave.startswith("Coluna ")`. -/
def startsWithColuna (k : String) : Bool :=
  "Coluna ".data.isPrefixOf k.data

/-- `alocacoes._format_row_string`. -/
def _format_row_string (row : Row) : String :=
  let partes :=
    (if truthyOpt (rowGet row "context") then
      ["Contexto: " ++ (rowGet row "context").getD ""] else []) ++
    (if truthyOpt (rowGet row "Dia") then
      ["Dia: " ++ (rowGet row "Dia").getD ""] else []) ++
    blocoKeys.filterMap (fun k =>
      if truthyOpt (rowGet row k) then some (k ++ ": " ++ (rowGet row k).getD "")
      else none) ++
    horarioKeys.filterMap (fun k =>
      if truthyOpt (rowGet row k) then some (k ++ ": " ++ (rowGet row k).getD "")
      else none) ++
    (if truthyOpt (rowGet row "Professor") then
      ["Professor: " ++ (rowGet row "Professor").getD ""] else [])
  let detalhes := row.filterMap (fun kv =>
    if formatSkipKeys.contains kv.1 then none
    else if kv.2.isEmpty then none
    else if startsWithColuna kv.1 then none
    else some (kv.1 ++ ": " ++ kv.2))
  let tail :=
    if !detalhes.isEmpty then detalhes
    else if truthyOpt (rowGet row "Coluna 1") then
      ["Disciplina: " ++ (rowGet row "Coluna 1").getD ""]
    else [(rowGet row "_row_text").getD ""]
  pyStrip (pyJoin "\n" (partes ++ tail))

/-- The `difflib` boundary: whether `get_close_matches(token, words, n=1,
cutoff=0.70)` finds a match, and `SequenceMatcher(None, a, b).ratio()`. -/
structure Difflib where
  close : String → List String → Bool
  ratio : String → String → ℚ

/-- Python `int()` truncation (toward zero) of a rational. -/
def pyIntOfRat (q : ℚ) : Int :=
  q.num.tdiv q.den

/-- The `exclude_tokens` stop-word set of `buscar_professor_em_alocacao`. -/
def excludeTokens : List String :=
  ["de", "da", "do", "dos", "das", "prof", "profa", "dr", "dra", "prof."]

/-- The match-type/score cascade of `buscar_professor_em_alocacao`
(`substring` 80, `tokens_all` 100, `tokens_fuzzy` 90, `last_name` 50,
whole-string `fuzzy(r)` `int(75 + r·25)` when `r > 0.65`). -/
def rowMatchScore (o : Difflib) (nome_norm : String) (tokens : List String)
    (texto : String) : Option Int :=
  if pyIn nome_norm texto then some 80
  else if !tokens.isEmpty && tokens.all (fun t => pyIn t texto) then some 100
  else
    let fuzzy : Option Int :=
      if !tokens.isEmpty then
        let text_words := pyFindallWords texto
        if tokens.all (fun t => text_words.contains t || o.close t text_words) then
          some 90
        else none
      else none
    match fuzzy with
    | some s => some s
    | none =>
      if !tokens.isEmpty && tokens.length = 1 &&
          pyIn (tokens.getLast?.getD "") texto then some 50
      else
        let r := o.ratio nome_norm texto
        if r > 13 / 20 then some (pyIntOfRat (75 + r * 25)) else none

/-- The row-collection loop of `buscar_professor_em_alocacao`: schedule
filter, score cascade, stop after six matches. (The `partes` list the
source also builds inside this loop is dead code — it is recomputed by
`_format_row_string` at the end — and is omitted.) -/
def collectMatches (o : Difflib) (nome_norm : String) (tokens : List String)
    (hp : HorarioParsed) : List Row → List (Int × Row) → List (Int × Row)
  | [], acc => acc
  | row :: rest, acc =>
    if !(_row_matches_schedule row hp) then
      collectMatches o nome_norm tokens hp rest acc
    else
      let texto := _normalize_token ((rowGet row "_row_text").getD "")
      match rowMatchScore o nome_norm tokens texto with
      | none => collectMatches o nome_norm tokens hp rest acc
      | some score =>
        let acc2 := acc ++ [(score, row)]
        if acc2.length ≥ 6 then acc2
        else collectMatches o nome_norm tokens hp rest acc2

/-- `alocacoes._extract_day_from_row`: scan of the lowered-key index
(early return on a weekday hit, otherwise remember the last examined
normalized value as `candidate`). -/
def extractDayScanKeys (row : Row) :
    List (String × String) → Option String → Option String × Option String
  | [], cand => (none, cand)
  | (kLow, kOrig) :: rest, cand =>
    if pyIn "dia" kLow || pyIn "horario" kLow then
      match rowGet row kOrig with
      | some v =>
        if !v.isEmpty then
          let v_norm := _normalize_token v
          match days_pt.find? (fun d => pyIn d v_norm) with
          | some d => (some d, cand)
          | none => extractDayScanKeys row rest (some v_norm)
        else extractDayScanKeys row rest cand
      | none => extractDayScanKeys row rest cand
    else extractDayScanKeys row rest cand

/-- `alocacoes._extract_day_from_row`. -/
def _extract_day_from_row (row : Row) : Option String :=
  let norm_keys := row.foldl (fun m kv => rowSet m (pyLower kv.1) kv.1) []
  match extractDayScanKeys row norm_keys none with
  | (some d, _) => some d
  | (none, cand) =>
    let texto := _normalize_token ((rowGet row "_row_text").getD "")
    match days_pt.find? (fun d => pyIn d texto) with
    | some d => some d
    | none => cand

/-- `grouped.setdefault(day, []).append(row)` on an association list. -/
def groupAppend : List (String × List Row) → String → Row → List (String × List Row)
  | [], k, row => [(k, [row])]
  | (k', rs) :: t, k, row =>
    if k' = k then (k', rs ++ [row]) :: t else (k', rs) :: groupAppend t k row

/-- First-occurrence lookup in the grouped structure. -/
def groupGet : List (String × List Row) → String → Option (List Row)
  | [], _ => none
  | (k', rs) :: t, k => if k' = k then some rs else groupGet t k

/-- The `group_by_day` aggregation of `buscar_professor_em_alocacao`
(`days_order` is the same weekday list as `days_pt`). -/
def buscarGroupByDay (nome_professor : String) (matched : List Row) :
    String × List (String × List Row) :=
  let grouped0 := days_pt.map (fun d => (d, ([] : List Row))) ++ [("sem_data", [])]
  let grouped := matched.foldl (fun g row =>
    match _extract_day_from_row row with
    | some day => groupAppend g day row
    | none => groupAppend g "sem_data" row) grouped0
  let week := days_pt.filterMap (fun d =>
    match groupGet grouped d with
    | some rs => if !rs.isEmpty then some (d, rs) else none
    | none => none)
  let week2 := week ++
    (match groupGet grouped "sem_data" with
     | some rs => if !rs.isEmpty then [("sem_data", rs)] else []
     | none => [])
  (nome_professor, week2)

/-- The three result shapes of `buscar_professor_em_alocacao` (formatted
strings, raw rows, or the week structure). Its early returns produce a
bare Python `[]`, rendered here as `strs []`. -/
inductive BuscaResult where
  | strs : List String → BuscaResult
  | rows : List Row → BuscaResult
  | week : String → List (String × List Row) → BuscaResult
deriving DecidableEq, Repr

/-- The `ALOCACAO_CACHE` dict. -/
structure AllocCache where
  timestamp : Option Int
  rows : List Row
  doc_url : Option String
  error : Option String

/-- `alocacoes.buscar_professor_em_alocacao`, over an already-loaded
cache (`carregar_alocacoes` is the fetch boundary) and the `difflib`
oracle. `today` is the current weekday. -/
def buscar_professor_em_alocacao (o : Difflib) (today : Fin 7)
    (cache : AllocCache) (nome_professor : String) (horario : Option String)
    (return_rows : Bool) (group_by_day : Bool) : BuscaResult :=
  if truthyOpt cache.error then
    .strs ["Não consegui acessar o documento de alocação no momento. " ++
      cache.error.getD ""]
  else if cache.rows.isEmpty then .strs []
  else
    let nome_norm := _normalize_token nome_professor
    let tokens := (pySplitWhitespace nome_norm).filter
      (fun t => t.length > 2 && !excludeTokens.contains t)
    let hp := _parse_horario_param today horario
    let scored := collectMatches o nome_norm tokens hp cache.rows []
    let matched_rows := scored.map Prod.snd
    if return_rows then .rows matched_rows
    else if group_by_day then
      let g := buscarGroupByDay nome_professor matched_rows
      .week g.1 g.2
    else
      .strs ((scored.mergeSort (fun a b => decide (b.1 ≤ a.1))).map
        (fun p => _format_row_string p.2))

theorem collectMatches_length_le (o : Difflib) (nome_norm : String)
    (tokens : List String) (hp : HorarioParsed) :
    ∀ (rows : List Row) (acc : List (Int × Row)), acc.length ≤ 5 →
      (collectMatches o nome_norm tokens hp rows acc).length ≤ 6 := by
  intro rows
  induction rows with
  | nil => intro acc hacc; simp only [collectMatches]; omega
  | cons row rest ih =>
    intro acc hacc
    cases hsch : _row_matches_schedule row hp with
    | false =>
      simp only [collectMatches, hsch, Bool.not_false, if_true]
      exact ih acc hacc
    | true =>
      simp only [collectMatches, hsch, Bool.not_true, Bool.false_eq_true, if_false]
      cases hscore : rowMatchScore o nome_norm tokens
          (_normalize_token ((rowGet row "_row_text").getD "")) with
      | none => exact ih acc hacc
      | some score =>
        simp only []
        by_cases hlen : (acc ++ [(score, row)]).length ≥ 6
        · rw [if_pos hlen]
          simp only [List.length_append, List.length_cons, List.length_nil]
          omega
        · rw [if_neg hlen]
          refine ih _ ?_
          simp only [List.length_append, List.length_cons, List.length_nil] at hlen ⊢
          omega

/-- C1: with the flags off, the allocation search returns the formatted
strings of a scored match list that is sorted by non-increasing score and
holds at most six entries — for every name, schedule text, cache content,
current weekday and `difflib` behaviour. -/
theorem buscar_professor_results_sorted_capped (o : Difflib) (today : Fin 7)
    (cache : AllocCache) (nome_professor : String) (horario : Option String)
    (herr : cache.error = none) :
    ∃ scored : List (Int × Row),
      buscar_professor_em_alocacao o today cache nome_professor horario
        false false = .strs (scored.map (fun p => _format_row_string p.2)) ∧
      List.Pairwise (fun a b : Int × Row => b.1 ≤ a.1) scored ∧
      scored.length ≤ 6 := by
  obtain ⟨ts, rows, du, err⟩ := cache
  have herr' : err = none := herr
  subst herr'
  cases rows with
  | nil => exact ⟨[], rfl, List.Pairwise.nil, by simp⟩
  | cons r rs =>
    refine ⟨_, rfl, ?_, ?_⟩
    · have hs := @List.sorted_mergeSort (Int × Row)
        (fun a b : Int × Row => decide (b.1 ≤ a.1))
        (fun a b c hab hbc => by
          simp only [decide_eq_true_eq] at hab hbc ⊢; omega)
        (fun a b => by
          rcases Int.le_total b.1 a.1 with hl | hl <;> simp [hl])
        (collectMatches o (_normalize_token nome_professor)
          ((pySplitWhitespace (_normalize_token nome_professor)).filter
            (fun t => t.length > 2 && !excludeTokens.contains t))
          (_parse_horario_param today horario) (r :: rs) [])
      exact hs.imp (fun hab => by simpa using hab)
    · rw [List.length_mergeSort]
      exact collectMatches_length_le o _ _ _ (r :: rs) [] (by simp)

theorem buscar_professor_results_sorted_capped_witness :
    ∃ scored : List (Int × Row),
      buscar_professor_em_alocacao ⟨fun _ _ => false, fun _ _ => 0⟩ 0
        ⟨none, [[("_row_text", "ana silva")]], none, none⟩ "Ana Silva" none
        false false = .strs (scored.map (fun p => _format_row_string p.2)) ∧
      List.Pairwise (fun a b : Int × Row => b.1 ≤ a.1) scored ∧
      scored.length ≤ 6 :=
  buscar_professor_results_sorted_capped ⟨fun _ _ => false, fun _ _ => 0⟩ 0
    ⟨none, [[("_row_text", "ana silva")]], none, none⟩ "Ana Silva" none rfl

/-- C5: `_row_matches_schedule` accepts every row when the parsed filter
has the week flag set; with the flag clear and a non-empty day list it
rejects any row whose `Dia` field and normalized `_row_text` contain none
of the requested day tags. -/
theorem row_matches_schedule_week_days (row : Row) (hp : HorarioParsed) :
    (hp.week = true → _row_matches_schedule row hp = true) ∧
    (hp.week = false → hp.days ≠ [] →
      (∀ d ∈ hp.days,
        pyIn d (_normalize_token ((rowGet row "Dia").getD "")) = false ∧
        pyIn d (_normalize_token ((rowGet row "_row_text").getD "")) = false) →
      _row_matches_schedule row hp = false) := by
  constructor
  · intro hw
    unfold _row_matches_schedule
    rw [hw]
    cases ht : hp.time with
    | none => simp
    | some tf => simp
  · intro hw hd hnone
    unfold _row_matches_schedule
    rw [hw]
    have h1 : hp.days.any
        (fun d => pyIn d (_normalize_token ((rowGet row "Dia").getD ""))) = false :=
      List.any_eq_false.mpr (fun d hdm => by rw [(hnone d hdm).1]; exact Bool.false_ne_true)
    have h2 : hp.days.any
        (fun d => pyIn d (_normalize_token ((rowGet row "_row_text").getD ""))) = false :=
      List.any_eq_false.mpr (fun d hdm => by rw [(hnone d hdm).2]; exact Bool.false_ne_true)
    have hne : hp.days.isEmpty = false := by
      cases hdl : hp.days with
      | nil => exact absurd hdl hd
      | cons a t => rfl
    simp [h1, h2, hne]

theorem row_matches_schedule_week_days_witness :
    _row_matches_schedule [] ⟨true, [], none, false, ""⟩ = true ∧
    _row_matches_schedule [] ⟨false, ["segunda"], none, false, ""⟩ = false :=
  ⟨(row_matches_schedule_week_days [] ⟨true, [], none, false, ""⟩).1 rfl,
    (row_matches_schedule_week_days [] ⟨false, ["segunda"], none, false, ""⟩).2
      rfl (by decide) (by decide)⟩

/-! `modules/tooling.py`: textual and structured tool-call extraction. -/

/-- Python values handled by the argument parsers. A float keeps its
literal text: no code path here consumes a float's numeric value (nor a
float's truthiness). -/
inductive PyVal where
  | pnone : PyVal
  | pbool : Bool → PyVal
  | pint : Int → PyVal
  | pfloat : String → PyVal
  | pstr : String → PyVal
  | plist : List PyVal → PyVal
  | pdict : List (String × PyVal) → PyVal
deriving Repr

/-- Python truthiness of a value (float truthiness is not modelled and
never taken by this code). -/
def pyTruthyVal : PyVal → Bool
  | .pnone => false
  | .pbool b => b
  | .pint n => !(n = 0)
  | .pfloat _ => true
  | .pstr s => !s.isEmpty
  | .plist l => !l.isEmpty
  | .pdict d => !d.isEmpty

/-- First-occurrence lookup in a Python dict of values. -/
def dictGet : List (String × PyVal) → String → Option PyVal
  | [], _ => none
  | (k', v) :: t, k => if k' = k then some v else dictGet t k

/-- `dict[key] = value` for value dicts. -/
def pvSet : List (String × PyVal) → String → PyVal → List (String × PyVal)
  | [], k, v => [(k, v)]
  | (k', v') :: t, k, v =>
    if k' = k then (k, v) :: t else (k', v') :: pvSet t k v

/-- `[\w\.]` of the call pattern. -/
def isWordDot (c : Char) : Bool :=
  isPyWord c || c = '.'

/-- One anchored attempt of `^\s*([\w\.]+)\s*\((.*)\)`: skip whitespace
(which may cross line breaks), read a maximal `[\w.]` name, skip
whitespace, require `(`, and let the greedy dot take the rest of the line
up to its last `)`. Returns the two capture groups. -/
def matchCallAt (cs : List Char) : Option (List Char × List Char) :=
  let cs1 := cs.dropWhile isPySpace
  let name := cs1.takeWhile isWordDot
  if name.isEmpty then none
  else
    match (cs1.dropWhile isWordDot).dropWhile isPySpace with
    | '(' :: rest =>
      let lineRest := rest.takeWhile (fun c => !(c = '\n'))
      match lineRest.reverse.dropWhile (fun c => !(c = ')')) with
      | ')' :: revGroup => some (name, revGroup.reverse)
      | _ => none
    | _ => none

/-- `re.search` of the line-anchored pattern under `re.M`: try each line
start in order. Fuel-bounded structural recursion (the scan advances at
least one character per step). -/
def searchCallFuel : Nat → List Char → Option (List Char × List Char)
  | _, [] => none
  | 0, _ :: _ => none
  | fuel + 1, cs =>
    match matchCallAt cs with
    | some r => some r
    | none =>
      match cs.dropWhile (fun c => !(c = '\n')) with
      | [] => none
      | _ :: rest => searchCallFuel fuel rest

/-- The quote-aware, depth-aware top-level comma split of
`parse_tool_call_from_text` (a transcription of its character loop;
`curr` is kept reversed). -/
def argSplitFold : List Char → Int → Option Char → List Char → List String →
    List String
  | [], _, _, curr, parts =>
    if curr.isEmpty then parts
    else parts ++ [pyStrip (String.mk curr.reverse)]
  | ch :: rest, depth, quote, curr, parts =>
    let quote2 :=
      if ch = '"' || ch = '\'' then
        match quote with
        | some q => if ch = q then none else quote
        | none => some ch
      else quote
    if quote2.isSome then argSplitFold rest depth quote2 (ch :: curr) parts
    else if ch = '(' then argSplitFold rest (depth + 1) quote2 (ch :: curr) parts
    else if ch = ')' then argSplitFold rest (depth - 1) quote2 (ch :: curr) parts
    else if ch = ',' && depth = 0 then
      argSplitFold rest depth quote2 [] (parts ++ [pyStrip (String.mk curr.reverse)])
    else argSplitFold rest depth quote2 (ch :: curr) parts

/-- `v.rstrip(",")`. -/
def rstripComma (s : String) : String :=
  String.mk ((s.data.reverse.dropWhile (fun c => c = ',')).reverse)

/-- Whether `float(s)` succeeds: optional sign, then digits with an
optional fraction, a lone fraction, or `inf`/`infinity`/`nan`, with an
optional exponent (Python's underscore separators are not modelled). -/
def isPyFloatLit (s : String) : Bool :=
  let t := pyStripList s.data
  let t2 := match t with
    | '+' :: r => r
    | '-' :: r => r
    | r => r
  let low := t2.map pyLowerChar
  if low = "inf".data || low = "infinity".data || low = "nan".data then true
  else
    let mant := t2.takeWhile (fun c => !(c = 'e' || c = 'E'))
    let expPart := t2.drop mant.length
    let mantOk :=
      let intPart := mant.takeWhile Char.isDigit
      match mant.drop intPart.length with
      | [] => !intPart.isEmpty
      | '.' :: frac =>
        frac.all Char.isDigit && (!intPart.isEmpty || !frac.isEmpty)
      | _ => false
    let expOk :=
      match expPart with
      | [] => true
      | _ :: r =>
        let r2 := match r with
          | '+' :: r3 => r3
          | '-' :: r3 => r3
          | r3 => r3
        !r2.isEmpty && r2.all Char.isDigit
    mantOk && expOk

/-- `part.split("=", 1)` when `"=" in part`. -/
def splitFirstEq (l : List Char) : Option (List Char × List Char) :=
  if l.contains '=' then
    some (l.takeWhile (fun c => !(c = '=')),
      (l.dropWhile (fun c => !(c = '='))).drop 1)
  else none

/-- The `key=value` value coercion: quoted string, boolean, `int`,
`float`, else the raw string. -/
def parseArgValue (v : String) : PyVal :=
  if ("\"".data.isPrefixOf v.data && "\"".data.isPrefixOf v.data.reverse) ||
      ("'".data.isPrefixOf v.data && "'".data.isPrefixOf v.data.reverse) then
    .pstr (String.mk (v.data.drop 1).dropLast)
  else if pyLower v = "true" || pyLower v = "false" then
    .pbool (pyLower v = "true")
  else
    match parsePyInt v.data with
    | some n => .pint n
    | none => if isPyFloatLit v then .pfloat v else .pstr v

/-- `full_name.split(".")[-1]`. -/
def lastDotComponent (s : String) : String :=
  String.mk ((splitOnChar '.' s.data []).getLast?.getD [])

/-- `tooling.parse_tool_call_from_text`. `str.casefold()` is modelled by
Latin-1 lowering, which agrees with it on this data. -/
def parse_tool_call_from_text (text : String) :
    Option String × Option (List (String × PyVal)) :=
  if text.isEmpty then (none, none)
  else
    let lowered := pyLower text
    if pyIn "exemplo" lowered || pyIn "ex:" lowered || pyIn "```" text ||
        pyIn "```python" lowered then (none, none)
    else
      match searchCallFuel text.data.length text.data with
      | none => (none, none)
      | some (nameChars, argsChars) =>
        let full_name := pyStrip (String.mk nameChars)
        let args_str := pyStrip (String.mk argsChars)
        let func_name := lastDotComponent full_name
        let parts := argSplitFold args_str.data 0 none [] []
        let kwargs := parts.foldl (fun m part =>
          if part.isEmpty then m
          else
            match splitFirstEq part.data with
            | none => m
            | some (k, v) =>
              let k2 := pyStrip (String.mk k)
              let v2 := rstripComma (pyStrip (String.mk v))
              pvSet m k2 (parseArgValue v2)) []
        (some func_name, some kwargs)

/-! Structured extraction from SDK responses. -/

/-- A structured function-call object (`name`/`arguments` attributes). -/
structure FCall where
  name : Option String
  arguments : Option PyVal

/-- One SDK candidate (`function_call`/`tool`/`content` attributes). -/
structure SdkCand where
  function_call : Option FCall
  tool : Option FCall
  content : Option PyVal

/-- An SDK response (`function_call`/`candidates` attributes). -/
structure SdkResponse where
  function_call : Option FCall
  candidates : Option (List SdkCand)

/-- `cand.function_call or cand.tool`. -/
def candFC (c : SdkCand) : Option FCall :=
  match c.function_call with
  | some fc => some fc
  | none => c.tool

/-- The candidate loop of `extract_function_call_from_response`.
`jloads` is the `json.loads` boundary (`none` means it raises, which the
code turns into empty arguments). -/
def extractFromCands (jloads : String → Option PyVal) :
    List SdkCand → Option String × Option PyVal
  | [] => (none, none)
  | cand :: rest =>
    match candFC cand with
    | some fc =>
      let args : PyVal :=
        match fc.arguments with
        | some (.pstr s) => (jloads s).getD (.pdict [])
        | some v => if pyTruthyVal v then v else .pdict []
        | none => .pdict []
      (fc.name, some args)
    | none =>
      match cand.content with
      | some (.pdict d) =>
        if (dictGet d "name").elim false pyTruthyVal ||
            (dictGet d "arguments").elim false pyTruthyVal then
          let name := match dictGet d "name" with
            | some (.pstr s) => some s
            | _ => none
          let args := match dictGet d "arguments" with
            | some v => if pyTruthyVal v then v else .pdict []
            | none => .pdict []
          (name, some args)
        else extractFromCands jloads rest
      | _ => extractFromCands jloads rest

/-- `tooling.extract_function_call_from_response`: direct function-call
field first (string arguments are JSON-parsed, parse failure yields `{}`),
then the candidate loop, else `(None, None)`. Total by construction —
the embedding has no failure path. -/
def extract_function_call_from_response (jloads : String → Option PyVal)
    (response : SdkResponse) : Option String × Option PyVal :=
  match response.function_call with
  | some fc =>
    let args : PyVal :=
      match fc.arguments with
      | some (.pstr s) =>
        if !s.isEmpty then (jloads s).getD (.pdict []) else .pdict []
      | some (.pdict d) => .pdict d
      | _ => .pdict []
    (fc.name, some args)
  | none =>
    match response.candidates with
    | some cands =>
      if cands.isEmpty then (none, none) else extractFromCands jloads cands
    | none => (none, none)

/-- A candidate with no function-call shape: no `function_call`/`tool`
attribute and no dict-shaped content with a truthy `name` or `arguments`. -/
def candNoShape (c : SdkCand) : Bool :=
  c.function_call.isNone && c.tool.isNone &&
    (match c.content with
     | some (.pdict d) =>
       !((dictGet d "name").elim false pyTruthyVal ||
         (dictGet d "arguments").elim false pyTruthyVal)
     | _ => true)

/-- No function-call shape anywhere in the response. -/
def hasNoCallShape (r : SdkResponse) : Bool :=
  r.function_call.isNone &&
    (match r.candidates with
     | none => true
     | some cands => cands.all candNoShape)

/-- C2: the fenced-code-block guard does hold for every input, but on the
unfenced line `print(default_api.buscar_dados_professores(nome_professor="Ana"))`
the line-anchored regex captures `print` as the function name (its greedy
group 2 swallows the whole inner call), so the parser returns
`("print", …)` — not the `("buscar_dados_professores",
{"nome_professor": "Ana"})` asserted by the specification and by
`tests/test_tool_parsing.py::test_parse_simple_call`. -/
theorem parse_tool_call_fence_and_print_wrapped :
    (∀ text : String, pyIn "```" text = true →
      parse_tool_call_from_text text = (none, none)) ∧
    parse_tool_call_from_text
      "print(default_api.buscar_dados_professores(nome_professor=\"Ana\"))" =
      (some "print",
       some [("default_api.buscar_dados_professores(nome_professor",
         .pstr "\"Ana\")")]) := by
  constructor
  · intro text hf
    unfold parse_tool_call_from_text
    by_cases he : text.isEmpty
    · rw [if_pos he]
    · rw [if_neg he, if_pos (by simp [hf])]
  · rfl

theorem parse_tool_call_fence_and_print_wrapped_witness :
    parse_tool_call_from_text "```x```" = (none, none) :=
  parse_tool_call_fence_and_print_wrapped.1 "```x```" (by decide)

theorem extractFromCands_no_shape (jloads : String → Option PyVal) :
    ∀ cands : List SdkCand, cands.all candNoShape = true →
      extractFromCands jloads cands = (none, none) := by
  intro cands
  induction cands with
  | nil => intro _; rfl
  | cons c rest ih =>
    intro hall
    rw [List.all_cons, Bool.and_eq_true] at hall
    obtain ⟨hc, hrest⟩ := hall
    unfold candNoShape at hc
    rw [Bool.and_eq_true, Bool.and_eq_true] at hc
    obtain ⟨⟨ha, hb⟩, hm⟩ := hc
    obtain ⟨cfc, ctool, ccontent⟩ := c
    have h1 : cfc = none := Option.isNone_iff_eq_none.mp ha
    have h2 : ctool = none := Option.isNone_iff_eq_none.mp hb
    subst h1
    subst h2
    cases ccontent with
    | none => exact ih hrest
    | some v =>
      cases v with
      | pdict d =>
        simp only [Bool.not_eq_true'] at hm
        show (if ((dictGet d "name").elim false pyTruthyVal ||
            (dictGet d "arguments").elim false pyTruthyVal) = true then _
          else extractFromCands jloads rest) = (none, none)
        rw [hm]
        exact ih hrest
      | pnone => exact ih hrest
      | pbool b => exact ih hrest
      | pint n => exact ih hrest
      | pfloat f => exact ih hrest
      | pstr s => exact ih hrest
      | plist l => exact ih hrest

/-- C8: the structured extractor is a total function of the response (the
embedding has no failure path); a direct function call whose string
arguments fail to JSON-parse yields the name with empty arguments, and a
response with no function-call shape at all yields `(None, None)`. -/
theorem extract_function_call_never_raises (jloads : String → Option PyVal)
    (r : SdkResponse) :
    (∀ (fc : FCall) (s : String), r.function_call = some fc →
      fc.arguments = some (.pstr s) → jloads s = none →
      extract_function_call_from_response jloads r = (fc.name, some (.pdict []))) ∧
    (hasNoCallShape r = true →
      extract_function_call_from_response jloads r = (none, none)) := by
  constructor
  · intro fc s hfc hargs hj
    obtain ⟨rfc, rcands⟩ := r
    have h1 : rfc = some fc := hfc
    subst h1
    obtain ⟨fname, fargs⟩ := fc
    have h2 : fargs = some (.pstr s) := hargs
    subst h2
    show (fname, some (if !s.isEmpty then (jloads s).getD (.pdict [])
      else PyVal.pdict [])) = (fname, some (.pdict []))
    cases he : s.isEmpty <;> simp [he, hj]
  · intro hshape
    unfold hasNoCallShape at hshape
    rw [Bool.and_eq_true] at hshape
    obtain ⟨ha, hb⟩ := hshape
    obtain ⟨rfc, rcands⟩ := r
    have h1 : rfc = none := Option.isNone_iff_eq_none.mp ha
    subst h1
    cases rcands with
    | none => rfl
    | some cands =>
      cases cands with
      | nil => rfl
      | cons c cs =>
        show extractFromCands jloads (c :: cs) = (none, none)
        exact extractFromCands_no_shape jloads (c :: cs) hb

theorem extract_function_call_never_raises_witness :
    extract_function_call_from_response (fun _ => none)
      ⟨some ⟨some "f", some (.pstr "notjson")⟩, none⟩ =
      (some "f", some (.pdict [])) ∧
    extract_function_call_from_response (fun _ => none) ⟨none, none⟩ =
      (none, none) :=
  ⟨(extract_function_call_never_raises (fun _ => none)
      ⟨some ⟨some "f", some (.pstr "notjson")⟩, none⟩).1
      ⟨some "f", some (.pstr "notjson")⟩ "notjson" rfl rfl rfl,
    (extract_function_call_never_raises (fun _ => none) ⟨none, none⟩).2 rfl⟩

/-! Generic insertion-ordered dict operations shared by the directory
index (`docentes.py`) and the session store (`session_store.py`). -/

/-- First-occurrence lookup in an association list. -/
def alistGet {α : Type} : List (String × α) → String → Option α
  | [], _ => none
  | (k', v) :: t, k => if k' = k then some v else alistGet t k

/-- `dict[key] = value`: replace in place, else append. -/
def alistSet {α : Type} : List (String × α) → String → α → List (String × α)
  | [], k, v => [(k, v)]
  | (k', v') :: t, k, v =>
    if k' = k then (k, v) :: t else (k', v') :: alistSet t k v

/-- `dict.pop(key, None)`. -/
def alistPop {α : Type} : List (String × α) → String → List (String × α)
  | [], _ => []
  | (k', v) :: t, k => if k' = k then t else (k', v) :: alistPop t k

/-- First defined of two options (`a or b` for dict lookups). -/
def optFirst {α : Type} : Option α → Option α → Option α
  | some v, _ => some v
  | none, b => b

/-- Write `kv` only when its key is absent (`dict.setdefault`, and the
`exists`-guarded `set` of the Redis migration). -/
def setdefaultStep {α : Type} (m : List (String × α)) (kv : String × α) :
    List (String × α) :=
  if (alistGet m kv.1).isSome then m else alistSet m kv.1 kv.2

theorem alistGet_cons {α : Type} (k1 : String) (v1 : α)
    (t : List (String × α)) (k : String) :
    alistGet ((k1, v1) :: t) k = if k1 = k then some v1 else alistGet t k := rfl

theorem alistSet_absent {α : Type} {m : List (String × α)} {k : String} {v : α}
    (h : alistGet m k = none) : alistSet m k v = m ++ [(k, v)] := by
  induction m with
  | nil => rfl
  | cons p t ih =>
    obtain ⟨k1, v1⟩ := p
    rw [alistGet_cons] at h
    by_cases hp : k1 = k
    · rw [if_pos hp] at h
      exact absurd h (by simp)
    · rw [if_neg hp] at h
      show (if k1 = k then (k, v) :: t else (k1, v1) :: alistSet t k v) =
        (k1, v1) :: t ++ [(k, v)]
      rw [if_neg hp, ih h]
      rfl

theorem alistGet_append {α : Type} (l1 l2 : List (String × α)) (k : String) :
    alistGet (l1 ++ l2) k = optFirst (alistGet l1 k) (alistGet l2 k) := by
  induction l1 with
  | nil => rfl
  | cons p t ih =>
    obtain ⟨k1, v1⟩ := p
    show alistGet ((k1, v1) :: (t ++ l2)) k = _
    rw [alistGet_cons, alistGet_cons]
    by_cases hp : k1 = k
    · rw [if_pos hp, if_pos hp]
      rfl
    · rw [if_neg hp, if_neg hp, ih]

theorem optFirst_assoc {α : Type} (a b c : Option α) :
    optFirst (optFirst a b) c = optFirst a (optFirst b c) := by
  cases a <;> cases b <;> rfl

/-- First-writer-wins: folding `setdefault` over a registration list
resolves every key to the earlier of its value in the accumulator and its
first registration. -/
theorem alistGet_foldl_setdefault {α : Type} :
    ∀ (regs : List (String × α)) (acc : List (String × α)) (k : String),
      alistGet (regs.foldl setdefaultStep acc) k =
        optFirst (alistGet acc k) (alistGet regs k) := by
  intro regs
  induction regs with
  | nil =>
    intro acc k
    show alistGet acc k = optFirst (alistGet acc k) none
    cases alistGet acc k <;> rfl
  | cons kv rest ih =>
    intro acc k
    obtain ⟨k1, v1⟩ := kv
    show alistGet (rest.foldl setdefaultStep (setdefaultStep acc (k1, v1))) k = _
    rw [ih, alistGet_cons]
    cases hacc : alistGet acc k1 with
    | some v0 =>
      have hstep : setdefaultStep acc (k1, v1) = acc := by
        unfold setdefaultStep
        rw [hacc]
        rfl
      rw [hstep]
      by_cases hk : k1 = k
      · subst hk
        rw [hacc, if_pos rfl]
        rfl
      · rw [if_neg hk]
    | none =>
      have hstep : setdefaultStep acc (k1, v1) = acc ++ [(k1, v1)] := by
        unfold setdefaultStep
        rw [hacc]
        show alistSet acc k1 v1 = acc ++ [(k1, v1)]
        exact alistSet_absent hacc
      rw [hstep, alistGet_append, optFirst_assoc]
      have h3 : optFirst (alistGet [(k1, v1)] k) (alistGet rest k) =
          if k1 = k then some v1 else alistGet rest k := by
        rw [alistGet_cons]
        by_cases hk : k1 = k
        · rw [if_pos hk, if_pos hk]
          rfl
        · rw [if_neg hk, if_neg hk]
          rfl
      rw [h3]

/-! `modules/docentes.py`: the directory index. -/

/-- The `NON_PERSON_WORDS` set (iteration order is irrelevant: it is only
probed with substring/membership tests). -/
def nonPersonWords : List String :=
  ["radio", "campus", "area", "area do aluno", "area do", "aluno", "alunos",
   "cursos", "servicos", "serviços", "eventos", "docentes", "docente",
   "perfil", "contato", "sobre", "noticias", "notícias", "home", "inicio",
   "programa"]

/-- The name-token character class `[A-Za-zÀ-ÖØ-öø-ÿ']`. -/
def isNameChar (c : Char) : Bool :=
  (65 ≤ c.toNat && c.toNat ≤ 90) || (97 ≤ c.toNat && c.toNat ≤ 122) ||
  (0xC0 ≤ c.toNat && c.toNat ≤ 0xD6) || (0xD8 ≤ c.toNat && c.toNat ≤ 0xF6) ||
  (0xF8 ≤ c.toNat && c.toNat ≤ 0xFF) || c = '\''

/-- `docentes._is_probable_person_name`. -/
def _is_probable_person_name (name : String) : Bool :=
  if name.isEmpty then false
  else
    let lower := pyLower (pyStrip name)
    if nonPersonWords.any (fun term => pyIn term lower) then false
    else if pyIn "@" name || pyIn "http" name || pyIn ".br" name then false
    else
      let tokens := (runsAux isNameChar name.data []).map String.mk
      if tokens.isEmpty then false
      else if tokens.length = 1 then
        let t := tokens.headD ""
        if t.length < 3 then false
        else if nonPersonWords.contains (pyLower t) then false
        else true
      else
        let long_tokens := tokens.filter (fun t => t.length ≥ 2)
        if long_tokens.length < 2 then false
        else
          let stop_tokens := ["de", "do", "da", "dos", "das", "e", "a", "o"]
          let meaningful := tokens.filter (fun t => !stop_tokens.contains (pyLower t))
          if meaningful.length < 2 then false else true

/-- A directory entry (`{"nome": …, "url": …}`). -/
structure DocEntry where
  nome : String
  url : String
deriving DecidableEq, Repr

/-- One scraped heading at the BeautifulSoup boundary: its text and, when
the DOM walk (`find_next` over perfil-labeled / `/docente/` links) found
one, the raw `href` of the resolved target link. -/
structure DocHeading where
  name : String
  targetHref : Option String
deriving DecidableEq, Repr

/-- The `(key, entry)` registrations one heading attempts, in source
order: the loop's guard clauses, the href fix-up, then full name, the
adjacent-token bigrams, and the last name. -/
def headingVariants (h : DocHeading) : List (String × DocEntry) :=
  if h.name.isEmpty then []
  else if !(_is_probable_person_name h.name) then []
  else
    match h.targetHref with
    | none => []
    | some href0 =>
      let href1 := pyStrip href0
      let href :=
        if !href1.isEmpty && "/".data.isPrefixOf href1.data then
          "https://www.quixada.ufc.br" ++ href1
        else href1
      if !(pyIn "/docente/" href) then []
      else
        let key := _normalize_token h.name
        let entry : DocEntry := ⟨h.name, href⟩
        let tokens := pySplitWhitespace key
        let bigrams := (tokens.zip (tokens.drop 1)).filterMap (fun p =>
          if p.1.length < 2 || p.2.length < 2 then none
          else some (p.1 ++ " " ++ p.2, entry))
        let lastReg :=
          if tokens.length > 1 then
            match tokens.getLast? with
            | some last =>
              if last.length ≥ 2 &&
                  !(["de", "do", "da", "dos", "das"].contains last) then
                [(last, entry)]
              else []
            | none => []
          else []
        (key, entry) :: bigrams ++ lastReg

/-- The index built by one refresh of `listar_docentes`: `setdefault` of
every variant of every accepted heading, in document order. -/
def buildDocIndex (headings : List DocHeading) : List (String × DocEntry) :=
  headings.foldl (fun idx h => (headingVariants h).foldl setdefaultStep idx) []

/-- All registrations in order, as a flat list. -/
def docRegistrations (headings : List DocHeading) : List (String × DocEntry) :=
  headings.flatMap headingVariants

/-- `DOCENTES_CACHE_TTL = timedelta(hours=12)`, in seconds. -/
def DOCENTES_CACHE_TTL : Int := 12 * 60 * 60

/-- `utils._cache_expired` (the duplicated `None` test collapses). -/
def _cache_expired (timestamp : Option Int) (ttl : Int) (now : Int) : Bool :=
  match timestamp with
  | none => true
  | some ts => now - ts > ttl

/-- The module-level `DOCENTES_INDEX_CACHE` / `DOCENTES_INDEX_TIMESTAMP`
pair. -/
structure DocState where
  cache : List (String × DocEntry)
  timestamp : Option Int
deriving DecidableEq, Repr

/-- `docentes.listar_docentes` as a state transition. `fetched` is the
`fetch_html` boundary: `none` when the fetch raises (the `except` path),
otherwise the scraped headings. Returns the result and the new module
state. -/
def listar_docentes (st : DocState) (now : Int)
    (fetched : Option (List DocHeading)) :
    List (String × DocEntry) × DocState :=
  if !st.cache.isEmpty &&
      !(_cache_expired st.timestamp DOCENTES_CACHE_TTL now) then
    (st.cache, st)
  else
    match fetched with
    | none => (st.cache, st)
    | some headings =>
      let index := buildDocIndex headings
      (index, ⟨index, some now⟩)

theorem buildDocIndex_eq_foldl (headings : List DocHeading) :
    buildDocIndex headings =
      (docRegistrations headings).foldl setdefaultStep [] := by
  unfold buildDocIndex docRegistrations
  generalize ([] : List (String × DocEntry)) = acc
  induction headings generalizing acc with
  | nil => rfl
  | cons h t ih =>
    rw [List.flatMap_cons, List.foldl_cons, List.foldl_append]
    exact ih _

/-- C7: in the index built by `listar_docentes`, every variant key (full
normalized name, adjacent-token bigram, last name) resolves to its first
registration; later registrations under the same key never overwrite it. -/
theorem docentes_index_first_writer_wins (headings : List DocHeading) (k : String) :
    alistGet (buildDocIndex headings) k =
      alistGet (docRegistrations headings) k := by
  rw [buildDocIndex_eq_foldl, alistGet_foldl_setdefault]
  rfl

/-- C10: when the cache is empty or expired and the directory fetch
fails, `listar_docentes` returns the previously cached index and leaves
the cache and its timestamp untouched. -/
theorem listar_docentes_failed_fetch_keeps_cache (st : DocState) (now : Int)
    (h : st.cache = [] ∨ _cache_expired st.timestamp DOCENTES_CACHE_TTL now = true) :
    listar_docentes st now none = (st.cache, st) := by
  unfold listar_docentes
  by_cases hc : (!st.cache.isEmpty &&
      !(_cache_expired st.timestamp DOCENTES_CACHE_TTL now)) = true
  · rw [if_pos hc]
  · rw [if_neg hc]

theorem listar_docentes_failed_fetch_keeps_cache_witness :
    listar_docentes ⟨[("x", ⟨"X", "u"⟩)], some 0⟩ 100000 none =
      ([("x", ⟨"X", "u"⟩)], ⟨[("x", ⟨"X", "u"⟩)], some 0⟩) :=
  listar_docentes_failed_fetch_keeps_cache ⟨[("x", ⟨"X", "u"⟩)], some 0⟩ 100000
    (Or.inr (by decide))

/-! `modules/session_store.py`: the in-memory → Redis migration. -/

/-- `_make_key`. -/
def _make_key (session_id : String) : String :=
  "chat:history:" ++ session_id

/-- `_make_state_key`. -/
def _make_state_key (session_id : String) : String :=
  "chat:state:" ++ session_id

/-- The store's mutable state: the Redis keyspace (string values) and the
two in-memory fallback dicts (`_in_memory_history`: session id → list of
`{role, content}` records; `_in_memory_state`: session id → state dict,
typed here as a string-valued dict). -/
structure SessionStoreState where
  redis : List (String × String)
  memHist : List (String × List (String × String))
  memState : List (String × List (String × String))
deriving DecidableEq, Repr

/-- `session_store._migrate_in_memory_to_redis`, over the `json.dumps`
boundary oracles. Each in-memory entry is written only when its Redis key
does not exist, and is popped from the in-memory dict either way; the
source interleaves the pop with the guarded `set` while iterating a
snapshot, which is equivalent to the two folds here because the pops
never touch Redis. -/
def _migrate_in_memory_to_redis
    (dumpsH dumpsS : List (String × String) → String)
    (st : SessionStoreState) : SessionStoreState :=
  let redis1 := st.memHist.foldl (fun r kv =>
    setdefaultStep r (_make_key kv.1, dumpsH kv.2)) st.redis
  let memHist1 := st.memHist.foldl (fun m kv => alistPop m kv.1) st.memHist
  let redis2 := st.memState.foldl (fun r kv =>
    setdefaultStep r (_make_state_key kv.1, dumpsS kv.2)) redis1
  let memState1 := st.memState.foldl (fun m kv => alistPop m kv.1) st.memState
  ⟨redis2, memHist1, memState1⟩

/-- C9: after the migration, every Redis key resolves to its value before
the migration when one existed, and otherwise to the first matching
in-memory entry (history entries first, then state entries) — so keys
already durable are never overwritten and only absent keys are written. -/
theorem migrate_preserves_existing_redis_keys
    (dumpsH dumpsS : List (String × String) → String)
    (st : SessionStoreState) (k : String) :
    alistGet (_migrate_in_memory_to_redis dumpsH dumpsS st).redis k =
      optFirst (alistGet st.redis k)
        (alistGet
          (st.memHist.map (fun kv => (_make_key kv.1, dumpsH kv.2)) ++
           st.memState.map (fun kv => (_make_state_key kv.1, dumpsS kv.2))) k) := by
  show alistGet (st.memState.foldl (fun r kv =>
      setdefaultStep r (_make_state_key kv.1, dumpsS kv.2))
      (st.memHist.foldl (fun r kv =>
        setdefaultStep r (_make_key kv.1, dumpsH kv.2)) st.redis)) k = _
  have hh : st.memHist.foldl (fun r kv =>
      setdefaultStep r (_make_key kv.1, dumpsH kv.2)) st.redis =
      (st.memHist.map (fun kv => (_make_key kv.1, dumpsH kv.2))).foldl
        setdefaultStep st.redis := by
    rw [List.foldl_map]
  have hs : ∀ acc : List (String × String),
      st.memState.foldl (fun r kv =>
        setdefaultStep r (_make_state_key kv.1, dumpsS kv.2)) acc =
      (st.memState.map (fun kv => (_make_state_key kv.1, dumpsS kv.2))).foldl
        setdefaultStep acc := by
    intro acc
    rw [List.foldl_map]
  rw [hh, hs, alistGet_foldl_setdefault, alistGet_foldl_setdefault,
    alistGet_append, optFirst_assoc]
